import Mathlib

/-!
Verification of the dithering / colour-quantization core of the repository.

The development shallowly embeds the relevant source functions over exact
rationals (for pixel arithmetic, kernels, palettes and threshold maps) and
over the reals (for the sRGB power curves).  Image buffers are total
functions from (row, column, channel) indices to rational pixel values,
with the dimensions carried separately, matching the dense NumPy arrays of
the source.  Machine floats are modelled by exact rationals: every claim
checked numerically here has a tolerance that dwarfs float32/float64
rounding of the operations involved.
-/

namespace Dither

/-- A pixel buffer: row, column, channel to value.  Positions outside the
image dimensions are never written by the embedded algorithms. -/
abbrev Buf : Type := Nat → Nat → Nat → ℚ

/-- A grayscale (single channel) buffer: row, column to value. -/
abbrev GBuf : Type := Nat → Nat → ℚ

/-- An error-diffusion kernel entry `(dx, dy, weight)` exactly as stored in
`ERROR_DIFFUSION_KERNELS` of `dithering_tool.py`. -/
abbrev KernelEntry : Type := Int × Int × ℚ

/-! ## Error-diffusion kernel catalog (`dithering_tool.py`, lines 105-166) -/

def floyd_steinberg_kernel : List KernelEntry :=
  [(1, 0, 7/16), (-1, 1, 3/16), (0, 1, 5/16), (1, 1, 1/16)]

def jarvis_judice_ninke_kernel : List KernelEntry :=
  [(1, 0, 7/48), (2, 0, 5/48),
   (-2, 1, 3/48), (-1, 1, 5/48), (0, 1, 7/48), (1, 1, 5/48), (2, 1, 3/48),
   (-2, 2, 1/48), (-1, 2, 3/48), (0, 2, 5/48), (1, 2, 3/48), (2, 2, 1/48)]

def stucki_kernel : List KernelEntry :=
  [(1, 0, 8/42), (2, 0, 4/42),
   (-2, 1, 2/42), (-1, 1, 4/42), (0, 1, 8/42), (1, 1, 4/42), (2, 1, 2/42),
   (-2, 2, 1/42), (-1, 2, 2/42), (0, 2, 4/42), (1, 2, 2/42), (2, 2, 1/42)]

def atkinson_kernel : List KernelEntry :=
  [(1, 0, 1/8), (2, 0, 1/8), (-1, 1, 1/8), (0, 1, 1/8), (1, 1, 1/8), (0, 2, 1/8)]

def burkes_kernel : List KernelEntry :=
  [(1, 0, 8/32), (2, 0, 4/32),
   (-2, 1, 2/32), (-1, 1, 4/32), (0, 1, 8/32), (1, 1, 4/32), (2, 1, 2/32)]

def sierra_two_row_kernel : List KernelEntry :=
  [(1, 0, 5/32), (2, 0, 3/32),
   (-2, 1, 2/32), (-1, 1, 4/32), (0, 1, 5/32), (1, 1, 4/32), (2, 1, 2/32)]

def sierra_lite_kernel : List KernelEntry :=
  [(1, 0, 2/4), (-1, 1, 1/4), (0, 1, 1/4)]

/-- The kernel registry of `dithering_tool.py` (`ERROR_DIFFUSION_KERNELS`),
keyed by algorithm name in source order. -/
def ERROR_DIFFUSION_KERNELS : List (String × List KernelEntry) :=
  [("Floyd-Steinberg", floyd_steinberg_kernel),
   ("Jarvis-Judice-Ninke", jarvis_judice_ninke_kernel),
   ("Stucki", stucki_kernel),
   ("Atkinson", atkinson_kernel),
   ("Burkes", burkes_kernel),
   ("Sierra (2-row)", sierra_two_row_kernel),
   ("Sierra Lite (2-4A)", sierra_lite_kernel)]

/-! ## app/core kernels (`app/core/dithering.py`, lines 79-117).
There the diffusion matrices are dictionaries keyed by `(dx, dy)`; the
entry layout below matches the standalone kernel layout `(dx, dy, w)`. -/

def app_floyd_steinberg_matrix : List KernelEntry :=
  [(1, 0, 7/16), (-1, 1, 3/16), (0, 1, 5/16), (1, 1, 1/16)]

def app_jarvis_judice_ninke_matrix : List KernelEntry :=
  [(1, 0, 7/48), (2, 0, 5/48),
   (-2, 1, 3/48), (-1, 1, 5/48), (0, 1, 7/48), (1, 1, 5/48), (2, 1, 3/48),
   (-2, 2, 1/48), (-1, 2, 3/48), (0, 2, 5/48), (1, 2, 3/48), (2, 2, 1/48)]

def app_sierra_matrix : List KernelEntry :=
  [(1, 0, 5/32), (2, 0, 3/32),
   (-2, 1, 2/32), (-1, 1, 4/32), (0, 1, 5/32), (1, 1, 4/32), (2, 1, 2/32),
   (-1, 2, 2/32), (0, 2, 3/32), (1, 2, 2/32)]

/-- The diffusion matrices registered in `app/core/dithering.py`. -/
def APP_DIFFUSION_MATRICES : List (String × List KernelEntry) :=
  [("Floyd-Steinberg", app_floyd_steinberg_matrix),
   ("Jarvis-Judice-Ninke", app_jarvis_judice_ninke_matrix),
   ("Sierra", app_sierra_matrix)]

/-- Sum of the weights of a kernel. -/
def kernelSum (k : List KernelEntry) : ℚ :=
  (k.map (fun e => e.2.2)).sum

end Dither

namespace Dither

/-- C2 counterexample: the claim fails on the code.  The Atkinson kernel is
registered in `ERROR_DIFFUSION_KERNELS`, yet its weights sum to 3/4, which
is not within 1e-4 of 1. -/
theorem C2_kernel_sum_counterexample :
    ("Atkinson", atkinson_kernel) ∈ ERROR_DIFFUSION_KERNELS ∧
      ¬ |kernelSum atkinson_kernel - 1| ≤ 1/10000 := by
  constructor
  · simp [ERROR_DIFFUSION_KERNELS]
  · norm_num [kernelSum, atkinson_kernel, abs_le]

/-- C2 amended: every kernel registered in the two catalogs has weights
summing exactly to 1 — hence within 1e-4 of 1 — except Atkinson, whose
weights sum to 3/4 (it deliberately diffuses only three quarters of the
error), and Sierra (2-row), whose weights sum to 25/32. -/
theorem C2_kernel_sums :
    kernelSum floyd_steinberg_kernel = 1 ∧
      kernelSum jarvis_judice_ninke_kernel = 1 ∧
      kernelSum stucki_kernel = 1 ∧
      kernelSum burkes_kernel = 1 ∧
      kernelSum sierra_lite_kernel = 1 ∧
      kernelSum app_floyd_steinberg_matrix = 1 ∧
      kernelSum app_jarvis_judice_ninke_matrix = 1 ∧
      kernelSum app_sierra_matrix = 1 ∧
      kernelSum atkinson_kernel = 3/4 ∧
      kernelSum sierra_two_row_kernel = 25/32 := by
  refine ⟨?_, ?_, ?_, ?_, ?_, ?_, ?_, ?_, ?_, ?_⟩ <;>
    norm_num [kernelSum, floyd_steinberg_kernel, jarvis_judice_ninke_kernel,
      stucki_kernel, burkes_kernel, sierra_lite_kernel, atkinson_kernel,
      sierra_two_row_kernel, app_floyd_steinberg_matrix,
      app_jarvis_judice_ninke_matrix, app_sierra_matrix]

end Dither

namespace Dither

/-! ## Shared buffer helpers -/

/-- `np.clip(v, lo, hi)`. -/
def clip (lo hi v : ℚ) : ℚ := max lo (min v hi)

/-- `np.clip(data, 0.0, 1.0)` (`clamp01` in `dithering_tool.py`). -/
def clamp01 (v : ℚ) : ℚ := clip 0 1 v

/-- Overwrite the pixel at `(y, x)` with channel values `px`. -/
def writeAt (buf : Buf) (y x : Nat) (px : Nat → ℚ) : Buf :=
  fun j i ch => if j = y ∧ i = x then px ch else buf j i ch

/-- `work[ny, nx] += err * wt` guarded by `0 <= nx < w and 0 <= ny < h`:
shares aimed outside the image bounds leave the buffer untouched. -/
def addInBounds (h w : Nat) (buf : Buf) (ny nx : Int) (err : Nat → ℚ) (wt : ℚ) : Buf :=
  if 0 ≤ nx ∧ nx < (w : Int) ∧ 0 ≤ ny ∧ ny < (h : Int) then
    fun j i ch => if j = ny.toNat ∧ i = nx.toNat then buf j i ch + err ch * wt else buf j i ch
  else buf

/-- The inner kernel loop of both `_error_diffusion` implementations:
`for dx, dy, weight in kernel: nx = x + dx*direction; ny = y + dy; ...`. -/
def diffuseErrors (h w : Nat) (kernel : List KernelEntry) (dir : Int)
    (y x : Nat) (err : Nat → ℚ) (buf : Buf) : Buf :=
  kernel.foldl
    (fun b e => addInBounds h w b ((y : Int) + e.2.1) ((x : Int) + e.1 * dir) err e.2.2) buf

/-- The total kernel weight the pixel `(y, x)` sends to position `(j, i)`:
the sum of the weights of the kernel entries whose (bounds-checked) target
is `(j, i)`.  It is `0` whenever `(j, i)` lies outside the image. -/
def targetWeight (h w : Nat) (kernel : List KernelEntry) (dir : Int) (y x j i : Nat) : ℚ :=
  (kernel.map (fun e =>
    if (0 ≤ (x : Int) + e.1 * dir ∧ (x : Int) + e.1 * dir < (w : Int) ∧
          0 ≤ (y : Int) + e.2.1 ∧ (y : Int) + e.2.1 < (h : Int)) ∧
        j = ((y : Int) + e.2.1).toNat ∧ i = ((x : Int) + e.1 * dir).toNat
      then e.2.2 else 0)).sum

/-- Pointwise evaluation of one guarded accumulation. -/
theorem addInBounds_eval (h w : Nat) (buf : Buf) (ny nx : Int) (err : Nat → ℚ)
    (wt : ℚ) (j i ch : Nat) :
    addInBounds h w buf ny nx err wt j i ch
      = buf j i ch +
          (if (0 ≤ nx ∧ nx < (w : Int) ∧ 0 ≤ ny ∧ ny < (h : Int)) ∧
              j = ny.toNat ∧ i = nx.toNat then err ch * wt else 0) := by
  by_cases hb : 0 ≤ nx ∧ nx < (w : Int) ∧ 0 ≤ ny ∧ ny < (h : Int)
  · by_cases ht : j = ny.toNat ∧ i = nx.toNat
    · simp [addInBounds, hb, ht]
    · simp [addInBounds, hb, ht]
  · simp [addInBounds, hb]

/-- Pointwise evaluation of the kernel loop: each position receives the
error weighted by the total kernel weight aimed at it (0 if none, or if it
is out of bounds). -/
theorem diffuseErrors_eval (h w : Nat) (kernel : List KernelEntry) (dir : Int)
    (y x : Nat) (err : Nat → ℚ) (buf : Buf) (j i ch : Nat) :
    diffuseErrors h w kernel dir y x err buf j i ch
      = buf j i ch + err ch * targetWeight h w kernel dir y x j i := by
  induction kernel generalizing buf with
  | nil => simp [diffuseErrors, targetWeight]
  | cons e K ih =>
    simp only [diffuseErrors, List.foldl_cons] at *
    rw [ih, addInBounds_eval]
    simp only [targetWeight, List.map_cons, List.sum_cons]
    split_ifs <;> ring

/-- Shares aimed at out-of-bounds neighbours are discarded: no in-image
position other than the kernel targets picks them up, and positions outside
the image receive total weight `0`. -/
theorem targetWeight_out_of_bounds (h w : Nat) (kernel : List KernelEntry) (dir : Int)
    (y x j i : Nat) (hout : h ≤ j ∨ w ≤ i) :
    targetWeight h w kernel dir y x j i = 0 := by
  induction kernel with
  | nil => simp [targetWeight]
  | cons e K ih =>
    simp only [targetWeight, List.map_cons, List.sum_cons] at *
    rw [ih]
    have : ¬ ((0 ≤ (x : Int) + e.1 * dir ∧ (x : Int) + e.1 * dir < (w : Int) ∧
        0 ≤ (y : Int) + e.2.1 ∧ (y : Int) + e.2.1 < (h : Int)) ∧
        j = ((y : Int) + e.2.1).toNat ∧ i = ((x : Int) + e.1 * dir).toNat) := by
      rintro ⟨⟨hx0, hxw, hy0, hyh⟩, hj, hi⟩
      rcases hout with hjh | hiw
      · have : ((y : Int) + e.2.1).toNat < h := by omega
        omega
      · have : ((x : Int) + e.1 * dir).toNat < w := by omega
        omega
    rw [if_neg this]
    ring

end Dither

namespace Dither

/-! ## Nearest palette colour (`argmin_distance`, `dithering_tool.py` 73-77) -/

/-- A palette colour: channel index to value (the source uses length-3 rows). -/
abbrev Colour : Type := Nat → ℚ

/-- Squared Euclidean distance over the first `c` channels
(`np.sum(diff * diff, axis=1)`). -/
def sqDist (c : Nat) (pixel q : Colour) : ℚ :=
  ((List.range c).map (fun ch => (q ch - pixel ch) ^ 2)).sum

/-- `np.argmin` over a list of distances: index of the first minimum. -/
def argminAux : List ℚ → Nat → Nat → ℚ → Nat
  | [], _, best, _ => best
  | d :: ds, k, best, bestd =>
      if d < bestd then argminAux ds (k + 1) k d else argminAux ds (k + 1) best bestd

/-- `argmin_distance(pixel, palette)`: index of the nearest palette colour,
ties resolved to the lower index (NumPy argmin returns the first minimum). -/
def argmin_distance (c : Nat) (pixel : Colour) (palette : List Colour) : Nat :=
  match palette.map (sqDist c pixel) with
  | [] => 0
  | d :: ds => argminAux ds 1 0 d

/-- The palette colour chosen for `pixel` (`palette[argmin_distance(...)]`). -/
def chosenColour (c : Nat) (palette : List Colour) (pixel : Colour) : Colour :=
  palette.getD (argmin_distance c pixel palette) (fun _ => 0)

/-! ## Serpentine scan order (`DitheringEngine._error_diffusion`, 462-482) -/

/-- Column traversal of row `y`: `range(w-1, -1, -1)` on odd rows when
serpentine scanning is on, `range(w)` otherwise. -/
def scanCols (serpentine : Bool) (w y : Nat) : List Nat :=
  if serpentine = true ∧ y % 2 = 1 then (List.range w).reverse else List.range w

/-- Horizontal direction of row `y`: `-1` on odd rows when serpentine
scanning is on, `1` otherwise; kernel entries target `x + dx * direction`. -/
def scanDir (serpentine : Bool) (y : Nat) : Int :=
  if serpentine = true ∧ y % 2 = 1 then -1 else 1

/-! ## Standalone error diffusion (`dithering_tool.py`, 449-482) -/

/-- One iteration of the pixel loop body of
`DitheringEngine._error_diffusion`: quantize `work[y, x]` to the nearest
palette colour, write it to the output buffer, and diffuse the residual
into the working buffer.  State is `(work, output)`. -/
def diffuseStep (h w c : Nat) (kernel : List KernelEntry) (palette : List Colour)
    (dir : Int) (st : Buf × Buf) (y x : Nat) : Buf × Buf :=
  let old : Colour := fun ch => st.1 y x ch
  let newp : Colour := chosenColour c palette old
  let err : Colour := fun ch => old ch - newp ch
  (diffuseErrors h w kernel dir y x err st.1, writeAt st.2 y x newp)

/-- `DitheringEngine._error_diffusion`: serpentine-aware row scan, returns
the output buffer (initialized to zeros, `np.zeros_like`). -/
def error_diffusion (h w c : Nat) (kernel : List KernelEntry) (palette : List Colour)
    (serpentine : Bool) (image : Buf) : Buf :=
  ((List.range h).foldl
    (fun st y =>
      (scanCols serpentine w y).foldl
        (fun st2 x => diffuseStep h w c kernel palette (scanDir serpentine y) st2 y x) st)
    (image, fun _ _ _ => 0)).2

/-! ## app/core error diffusion (`app/core/dithering.py`, 275-291) -/

/-- `strength = np.clip(request.amplitude, 0.1, 3.0)`. -/
def app_strength (amplitude : ℚ) : ℚ := clip (1/10) 3 amplitude

/-- `threshold = np.clip(request.threshold + (strength - 1.0) * 60.0, 0.0, 255.0)`. -/
def app_threshold_of (threshold amplitude : ℚ) : ℚ :=
  clip 0 255 (threshold + (app_strength amplitude - 1) * 60)

/-- `diffusion_gain = 0.75 + strength * 0.75`. -/
def app_diffusion_gain (amplitude : ℚ) : ℚ := 3/4 + app_strength amplitude * (3/4)

/-- Per-channel binarization `np.where(old_pixel > threshold, 255.0, 0.0)`. -/
def binarize (thr : ℚ) (old : Colour) : Colour :=
  fun ch => if old ch > thr then 255 else 0

/-- One iteration of the pixel loop body of `_error_diffusion` in
`app/core/dithering.py`: threshold the pixel, write the result back into
the (single, shared) buffer, and diffuse the gain-scaled residual into the
same buffer. -/
def appDiffuseStep (h w : Nat) (matrix : List KernelEntry) (thr gain : ℚ)
    (buf : Buf) (y x : Nat) : Buf :=
  let old : Colour := fun ch => buf y x ch
  let newp : Colour := binarize thr old
  let err : Colour := fun ch => (old ch - newp ch) * gain
  diffuseErrors h w matrix 1 y x err (writeAt buf y x newp)

/-- `_error_diffusion(image, request, diffusion_matrix)` from
`app/core/dithering.py`: row-major scan over a single buffer, followed by
`np.clip(buffer, 0, 255)`. -/
def app_error_diffusion (h w : Nat) (matrix : List KernelEntry)
    (amplitude threshold : ℚ) (image : Buf) : Buf :=
  let thr := app_threshold_of threshold amplitude
  let gain := app_diffusion_gain amplitude
  let final :=
    (List.range h).foldl
      (fun b y => (List.range w).foldl (fun b2 x => appDiffuseStep h w matrix thr gain b2 y x) b)
      image
  fun j i ch => clip 0 255 (final j i ch)

/-- `floyd_steinberg(image, request)` from `app/core/dithering.py`. -/
def app_floyd_steinberg (h w : Nat) (amplitude threshold : ℚ) (image : Buf) : Buf :=
  app_error_diffusion h w app_floyd_steinberg_matrix amplitude threshold image

/-- `jarvis_judice_ninke(image, request)` from `app/core/dithering.py`. -/
def app_jarvis_judice_ninke (h w : Nat) (amplitude threshold : ℚ) (image : Buf) : Buf :=
  app_error_diffusion h w app_jarvis_judice_ninke_matrix amplitude threshold image

/-- `sierra(image, request)` from `app/core/dithering.py`. -/
def app_sierra (h w : Nat) (amplitude threshold : ℚ) (image : Buf) : Buf :=
  app_error_diffusion h w app_sierra_matrix amplitude threshold image

end Dither

namespace Dither

/-! ## Row-major scan order -/

/-- The row-major list of pixel positions visited by
`for y in range(height): for x in range(width)`. -/
def rowMajorPos (h w : Nat) : List (Nat × Nat) :=
  (List.range h).bind (fun y => (List.range w).map (fun x => (y, x)))

/-- Strict row-major (scan) order on positions. -/
def rowLt (p q : Nat × Nat) : Prop :=
  p.1 < q.1 ∨ (p.1 = q.1 ∧ p.2 < q.2)

theorem rowLt_irrefl (p : Nat × Nat) : ¬ rowLt p p := by
  unfold rowLt; omega

theorem rowLt_trans {p q r : Nat × Nat} (h1 : rowLt p q) (h2 : rowLt q r) : rowLt p r := by
  unfold rowLt at *; omega

theorem mem_rowMajorPos {h w : Nat} {p : Nat × Nat} :
    p ∈ rowMajorPos h w ↔ p.1 < h ∧ p.2 < w := by
  rcases p with ⟨y, x⟩
  simp only [rowMajorPos, List.mem_bind, List.mem_map, List.mem_range, Prod.mk.injEq]
  constructor
  · rintro ⟨a, ha, b, hb, rfl, rfl⟩
    exact ⟨ha, hb⟩
  · rintro ⟨hy, hx⟩
    exact ⟨y, hy, x, hx, rfl, rfl⟩

theorem pairwise_rowMajorPos (h w : Nat) : (rowMajorPos h w).Pairwise rowLt := by
  induction h with
  | zero => simp [rowMajorPos]
  | succ n ih =>
    have hsplit : rowMajorPos (n + 1) w
        = rowMajorPos n w ++ (List.range w).map (fun x => (n, x)) := by
      simp [rowMajorPos, List.range_succ]
    rw [hsplit, List.pairwise_append]
    refine ⟨ih, ?_, ?_⟩
    · rw [List.pairwise_map]
      exact (List.pairwise_lt_range w).imp (fun hab => Or.inr ⟨rfl, hab⟩)
    · intro a ha b hb
      have ha1 : a.1 < n := (mem_rowMajorPos.mp ha).1
      have hb1 : b.1 = n := by
        rcases List.mem_map.mp hb with ⟨x, _, rfl⟩
        rfl
      exact Or.inl (by omega)

/-- Evaluating a row-major double loop as a fold over `rowMajorPos`. -/
theorem foldl_rowMajor {α : Type} (g : α → Nat × Nat → α) (h w : Nat) (b : α) :
    (rowMajorPos h w).foldl g b
      = (List.range h).foldl
          (fun bb y => (List.range w).foldl (fun b2 x => g b2 (y, x)) bb) b := by
  induction h generalizing b with
  | zero => simp [rowMajorPos]
  | succ n ih =>
    have hsplit : rowMajorPos (n + 1) w
        = rowMajorPos n w ++ (List.range w).map (fun x => (n, x)) := by
      simp [rowMajorPos, List.range_succ]
    rw [hsplit, List.foldl_append, ih, List.range_succ, List.foldl_append,
      List.foldl_map]
    simp

/-! ## Localized pixel-loop steps -/

/-- A step function is localized when, visiting position `q`, it leaves
every position other than `q` and positions strictly after `q` in scan
order untouched. -/
def Localized (step : Buf → Nat × Nat → Buf) : Prop :=
  ∀ (b : Buf) (q : Nat × Nat) (j i ch : Nat),
    ¬ (q = (j, i) ∨ rowLt q (j, i)) → step b q j i ch = b j i ch

theorem foldl_localized_preserve (step : Buf → Nat × Nat → Buf)
    (hloc : Localized step) :
    ∀ (l : List (Nat × Nat)) (b : Buf) (p : Nat × Nat) (ch : Nat),
      (∀ q ∈ l, rowLt p q) → (l.foldl step b) p.1 p.2 ch = b p.1 p.2 ch := by
  intro l
  induction l with
  | nil => intro b p ch _; rfl
  | cons q rest ih =>
    intro b p ch hall
    rw [List.foldl_cons, ih _ _ _ (fun r hr => hall r (List.mem_cons_of_mem _ hr))]
    apply hloc
    have hq := hall q (List.mem_cons_self _ _)
    rintro (rfl | hlt)
    · exact rowLt_irrefl p hq
    · exact rowLt_irrefl p (rowLt_trans hq hlt)

/-- Fold invariant for localized steps: whatever property the step
establishes at the visited pixel still holds at every visited pixel when
the scan finishes. -/
theorem foldl_localized_pred (step : Buf → Nat × Nat → Buf)
    (P : Nat × Nat → Nat → ℚ → Prop) (hloc : Localized step)
    (hset : ∀ (b : Buf) (q : Nat × Nat) (ch : Nat), P q ch (step b q q.1 q.2 ch)) :
    ∀ (l : List (Nat × Nat)) (b : Buf), l.Pairwise rowLt →
      ∀ p ∈ l, ∀ ch, P p ch ((l.foldl step b) p.1 p.2 ch) := by
  intro l
  induction l with
  | nil => intro b _ p hp; exact absurd hp (List.not_mem_nil p)
  | cons q rest ih =>
    intro b hpw p hp ch
    rw [List.foldl_cons]
    rcases List.mem_cons.mp hp with rfl | hmem
    · rw [foldl_localized_preserve step hloc rest (step b p) p ch
        (fun r hr => (List.pairwise_cons.mp hpw).1 r hr)]
      exact hset b p ch
    · exact ih (step b q) (List.pairwise_cons.mp hpw).2 p hmem ch

end Dither

namespace Dither

/-! ## Strictly forward kernels and the binary-output invariant (C10) -/

/-- Every kernel entry points strictly forward in row-major scan order:
below the current row, or to its right within the current row. -/
def forwardKernel (K : List KernelEntry) : Prop :=
  ∀ e ∈ K, 0 < e.2.1 ∨ (e.2.1 = 0 ∧ 0 < e.1)

/-- With a strictly forward kernel (and `dir = 1`), a pixel sends no weight
to itself or to any position at or before it in scan order. -/
theorem targetWeight_zero_of_not_rowLt (h w : Nat) (K : List KernelEntry)
    (hK : forwardKernel K) (y x j i : Nat) (hnot : ¬ rowLt (y, x) (j, i)) :
    targetWeight h w K 1 y x j i = 0 := by
  induction K with
  | nil => simp [targetWeight]
  | cons e K ih =>
    have he := hK e (List.mem_cons_self _ _)
    have hK2 : forwardKernel K := fun a ha => hK a (List.mem_cons_of_mem _ ha)
    simp only [targetWeight, List.map_cons, List.sum_cons]
    have hihz := ih hK2
    simp only [targetWeight] at hihz
    rw [hihz]
    have hcond : ¬ ((0 ≤ (x : Int) + e.1 * 1 ∧ (x : Int) + e.1 * 1 < (w : Int) ∧
        0 ≤ (y : Int) + e.2.1 ∧ (y : Int) + e.2.1 < (h : Int)) ∧
        j = ((y : Int) + e.2.1).toNat ∧ i = ((x : Int) + e.1 * 1).toNat) := by
      rintro ⟨⟨hx0, hxw, hy0, hyh⟩, hj, hi⟩
      apply hnot
      unfold rowLt
      simp only [mul_one] at hx0 hxw hi
      omega
    rw [if_neg hcond]
    ring

/-- The app/core pixel step is localized: it changes only the visited
pixel and strictly later positions. -/
theorem appDiffuseStep_localized (h w : Nat) (K : List KernelEntry) (thr gain : ℚ)
    (hK : forwardKernel K) :
    Localized (fun b p => appDiffuseStep h w K thr gain b p.1 p.2) := by
  intro b q j i ch hnot
  push_neg at hnot
  obtain ⟨hne, hlt⟩ := hnot
  show appDiffuseStep h w K thr gain b q.1 q.2 j i ch = b j i ch
  simp only [appDiffuseStep]
  rw [diffuseErrors_eval, targetWeight_zero_of_not_rowLt h w K hK q.1 q.2 j i hlt]
  simp only [writeAt, mul_zero, add_zero]
  rw [if_neg]
  rintro ⟨h1, h2⟩
  exact hne (by rw [h1, h2])

/-- Visiting a pixel binarizes it in place. -/
theorem appDiffuseStep_self (h w : Nat) (K : List KernelEntry) (thr gain : ℚ)
    (hK : forwardKernel K) (b : Buf) (q : Nat × Nat) (ch : Nat) :
    appDiffuseStep h w K thr gain b q.1 q.2 q.1 q.2 ch
      = (if b q.1 q.2 ch > thr then 255 else 0) := by
  simp only [appDiffuseStep]
  rw [diffuseErrors_eval,
    targetWeight_zero_of_not_rowLt h w K hK q.1 q.2 q.1 q.2 (rowLt_irrefl (q.1, q.2))]
  simp [writeAt, binarize]

/-- With a strictly forward kernel, every in-bounds output value of
`_error_diffusion` in `app/core/dithering.py` is 0 or 255, for any
amplitude, threshold, dimensions, channel count and input buffer. -/
theorem app_error_diffusion_binary (K : List KernelEntry) (hK : forwardKernel K)
    (h w : Nat) (amplitude threshold : ℚ) (image : Buf) (y x ch : Nat)
    (hy : y < h) (hx : x < w) :
    app_error_diffusion h w K amplitude threshold image y x ch = 0 ∨
      app_error_diffusion h w K amplitude threshold image y x ch = 255 := by
  set thr := app_threshold_of threshold amplitude with hthr
  set gain := app_diffusion_gain amplitude with hgain
  have hfold := foldl_localized_pred
    (fun b p => appDiffuseStep h w K thr gain b p.1 p.2)
    (fun _ _ v => v = 0 ∨ v = 255)
    (appDiffuseStep_localized h w K thr gain hK)
    (fun b q ch2 => by
      show appDiffuseStep h w K thr gain b q.1 q.2 q.1 q.2 ch2 = 0 ∨
        appDiffuseStep h w K thr gain b q.1 q.2 q.1 q.2 ch2 = 255
      rw [appDiffuseStep_self h w K thr gain hK b q ch2]
      split_ifs <;> simp)
    (rowMajorPos h w) image (pairwise_rowMajorPos h w) (y, x)
    (mem_rowMajorPos.mpr ⟨hy, hx⟩) ch
  have hrw : app_error_diffusion h w K amplitude threshold image y x ch
      = clip 0 255 (((rowMajorPos h w).foldl
          (fun b p => appDiffuseStep h w K thr gain b p.1 p.2) image) y x ch) := by
    simp only [app_error_diffusion, ← hthr, ← hgain]
    rw [foldl_rowMajor]
  rw [hrw]
  rcases hfold with h0 | h255
  · left
    simp only at h0
    rw [h0]
    norm_num [clip]
  · right
    simp only at h255
    rw [h255]
    norm_num [clip]

end Dither

namespace Dither

/-- C10: the three error-diffusion algorithms of `app/core/dithering.py`
(`floyd_steinberg`, `jarvis_judice_ninke`, `sierra`) have strictly forward
kernel offsets (below the current row, or right of the current pixel in
the same row), so a pixel once binarized is never modified again, and the
returned buffer holds only the values 0.0 and 255.0 in every channel of
every in-bounds pixel — for every input buffer, amplitude and threshold
and independently of any palette in the request (the routine never reads a
palette). -/
theorem C10_app_diffusion_binary :
    (forwardKernel app_floyd_steinberg_matrix ∧
      forwardKernel app_jarvis_judice_ninke_matrix ∧
      forwardKernel app_sierra_matrix) ∧
    (∀ (h w : Nat) (amplitude threshold : ℚ) (image : Buf) (y x ch : Nat),
      y < h → x < w →
      (app_floyd_steinberg h w amplitude threshold image y x ch = 0 ∨
        app_floyd_steinberg h w amplitude threshold image y x ch = 255) ∧
      (app_jarvis_judice_ninke h w amplitude threshold image y x ch = 0 ∨
        app_jarvis_judice_ninke h w amplitude threshold image y x ch = 255) ∧
      (app_sierra h w amplitude threshold image y x ch = 0 ∨
        app_sierra h w amplitude threshold image y x ch = 255)) := by
  have hfs : forwardKernel app_floyd_steinberg_matrix := by
    unfold forwardKernel; decide
  have hjjn : forwardKernel app_jarvis_judice_ninke_matrix := by
    unfold forwardKernel; decide
  have hsi : forwardKernel app_sierra_matrix := by
    unfold forwardKernel; decide
  refine ⟨⟨hfs, hjjn, hsi⟩, ?_⟩
  intro h w amplitude threshold image y x ch hy hx
  exact ⟨app_error_diffusion_binary _ hfs h w amplitude threshold image y x ch hy hx,
    app_error_diffusion_binary _ hjjn h w amplitude threshold image y x ch hy hx,
    app_error_diffusion_binary _ hsi h w amplitude threshold image y x ch hy hx⟩

/-- Concrete instance of `C10_app_diffusion_binary` on a 1-by-1 image. -/
theorem C10_app_diffusion_binary_witness :
    (0 : Nat) < 1 ∧
      ((app_floyd_steinberg 1 1 1 127 (fun _ _ _ => 100) 0 0 0 = 0 ∨
        app_floyd_steinberg 1 1 1 127 (fun _ _ _ => 100) 0 0 0 = 255) ∧
      (app_jarvis_judice_ninke 1 1 1 127 (fun _ _ _ => 100) 0 0 0 = 0 ∨
        app_jarvis_judice_ninke 1 1 1 127 (fun _ _ _ => 100) 0 0 0 = 255) ∧
      (app_sierra 1 1 1 127 (fun _ _ _ => 100) 0 0 0 = 0 ∨
        app_sierra 1 1 1 127 (fun _ _ _ => 100) 0 0 0 = 255)) :=
  ⟨Nat.one_pos,
    (C10_app_diffusion_binary.2) 1 1 1 127 (fun _ _ _ => 100) 0 0 0
      Nat.one_pos Nat.one_pos⟩

/-! ## C1: residual propagation -/

/-- Modelled from the spec: the behaviour the claim states for the
app/core diffusion — the residual `old - chosen` multiplied by the kernel
weight alone (no `diffusion_gain` factor) is what gets accumulated.  Built
for comparison with `app_error_diffusion`, which the source defines with
`error = (old_pixel - new_pixel) * diffusion_gain`. -/
def spec_residual_diffusion (h w : Nat) (matrix : List KernelEntry)
    (amplitude threshold : ℚ) (image : Buf) : Buf :=
  let thr := app_threshold_of threshold amplitude
  let final :=
    (List.range h).foldl
      (fun b y => (List.range w).foldl (fun b2 x => appDiffuseStep h w matrix thr 1 b2 y x) b)
      image
  fun j i ch => clip 0 255 (final j i ch)

/-- A 1-by-2 single-channel test image: pixel (0,0) is 200, pixel (0,1)
is 160. -/
def c1Image : Buf := fun _ i _ => if i = 0 then 200 else 160

/-- C1 counterexample: the claim fails on the code.  Running the app/core
Floyd-Steinberg diffusion on the 1-by-2 image (200, 160) with amplitude 1
and threshold 127 (so `diffusion_gain = 1.5`): pixel (0,0) binarizes to
255 with residual -55, but its right neighbour receives
`-55 * 1.5 * 7/16 = -36.09375` instead of the claimed `-55 * 7/16`, ending
at 123.90625 < 127 and binarizing to 0; exact-residual propagation as the
claim states it would leave 135.9375 > 127, binarizing to 255. -/
theorem C1_residual_counterexample :
    app_error_diffusion 1 2 app_floyd_steinberg_matrix 1 127 c1Image 0 1 0 = 0 ∧
      spec_residual_diffusion 1 2 app_floyd_steinberg_matrix 1 127 c1Image 0 1 0 = 255 ∧
      app_error_diffusion 1 2 app_floyd_steinberg_matrix 1 127 c1Image 0 1 0 ≠
        spec_residual_diffusion 1 2 app_floyd_steinberg_matrix 1 127 c1Image 0 1 0 := by
  refine ⟨?_, ?_, ?_⟩ <;>
    norm_num [app_error_diffusion, spec_residual_diffusion, appDiffuseStep,
      diffuseErrors, addInBounds, writeAt, binarize, app_threshold_of,
      app_diffusion_gain, app_strength, clip, c1Image,
      app_floyd_steinberg_matrix, List.range_succ, max_def, min_def]

end Dither

namespace Dither

/-- C1 amended: in the standalone engine each visited pixel's residual is
exactly `old - chosen`, and exactly residual times kernel weight is
accumulated into the working buffer at each in-bounds kernel target, while
the chosen colour goes to the separate output buffer; in the app/core
diffusion the accumulated quantity is the residual scaled by
`diffusion_gain`, into the single shared buffer.  In both engines the
total weight aimed at any out-of-bounds position is 0: those shares are
dropped, not redistributed. -/
theorem C1_residual_propagation :
    (∀ (h w c : Nat) (kernel : List KernelEntry) (palette : List Colour)
        (dir : Int) (work out : Buf) (y x j i ch : Nat),
        (diffuseStep h w c kernel palette dir (work, out) y x).1 j i ch
          = work j i ch
            + (work y x ch - chosenColour c palette (fun ch2 => work y x ch2) ch)
              * targetWeight h w kernel dir y x j i) ∧
    (∀ (h w c : Nat) (kernel : List KernelEntry) (palette : List Colour)
        (dir : Int) (work out : Buf) (y x j i ch : Nat),
        (diffuseStep h w c kernel palette dir (work, out) y x).2 j i ch
          = if j = y ∧ i = x then chosenColour c palette (fun ch2 => work y x ch2) ch
            else out j i ch) ∧
    (∀ (h w : Nat) (matrix : List KernelEntry) (thr gain : ℚ) (b : Buf)
        (y x j i ch : Nat),
        appDiffuseStep h w matrix thr gain b y x j i ch
          = writeAt b y x (binarize thr (fun ch2 => b y x ch2)) j i ch
            + (b y x ch - binarize thr (fun ch2 => b y x ch2) ch) * gain
              * targetWeight h w matrix 1 y x j i) ∧
    (∀ (h w : Nat) (kernel : List KernelEntry) (dir : Int) (y x j i : Nat),
        h ≤ j ∨ w ≤ i → targetWeight h w kernel dir y x j i = 0) := by
  refine ⟨?_, ?_, ?_, ?_⟩
  · intro h w c kernel palette dir work out y x j i ch
    simp only [diffuseStep]
    rw [diffuseErrors_eval]
  · intro h w c kernel palette dir work out y x j i ch
    simp only [diffuseStep, writeAt]
  · intro h w matrix thr gain b y x j i ch
    simp only [appDiffuseStep]
    rw [diffuseErrors_eval]
  · intro h w kernel dir y x j i hout
    exact targetWeight_out_of_bounds h w kernel dir y x j i hout

/-- Concrete instance of `C1_residual_propagation`: the pixel (0,0) of a
1-by-1 image sends weight 0 to the out-of-bounds position (0,1). -/
theorem C1_residual_propagation_witness :
    ((1 : Nat) ≤ 1 ∨ (1 : Nat) ≤ 1) ∧
      targetWeight 1 1 floyd_steinberg_kernel 1 0 0 0 1 = 0 :=
  ⟨Or.inl le_rfl,
    C1_residual_propagation.2.2.2 1 1 floyd_steinberg_kernel 1 0 0 0 1 (Or.inr le_rfl)⟩

end Dither

namespace Dither

/-- C3: with serpentine scanning enabled, `DitheringEngine._error_diffusion`
traverses every odd row right-to-left (`range(w-1, -1, -1)`) with the
kernel's horizontal offsets negated (the entry `(dx, dy, wt)` targets
column `x - dx`), and every even row left-to-right (`range(w)`) with the
offsets unmirrored (targeting `x + dx`); row offsets are never mirrored.
For any image with at least 2 rows both cases occur (row 1 is odd). -/
theorem C3_serpentine_scan (h w : Nat) (hh : 2 ≤ h) :
    (∀ y, y < h → y % 2 = 1 →
      scanCols true w y = (List.range w).reverse ∧ scanDir true y = -1 ∧
      ∀ (x : Nat) (e : KernelEntry),
        (x : Int) + e.1 * scanDir true y = (x : Int) - e.1) ∧
    (∀ y, y < h → y % 2 = 0 →
      scanCols true w y = List.range w ∧ scanDir true y = 1 ∧
      ∀ (x : Nat) (e : KernelEntry),
        (x : Int) + e.1 * scanDir true y = (x : Int) + e.1) ∧
    (1 < h ∧ 1 % 2 = 1) := by
  refine ⟨?_, ?_, hh, rfl⟩
  · intro y hy hodd
    refine ⟨by simp [scanCols, hodd], by simp [scanDir, hodd], ?_⟩
    intro x e
    simp [scanDir, hodd]
    ring
  · intro y hy heven
    refine ⟨by simp [scanCols, heven], by simp [scanDir, heven], ?_⟩
    intro x e
    simp [scanDir, heven]

/-- Concrete instance of `C3_serpentine_scan` on a 2-by-3 image. -/
theorem C3_serpentine_scan_witness :
    2 ≤ 2 ∧ scanCols true 3 1 = [2, 1, 0] ∧ scanDir true 1 = -1 ∧
      scanCols true 3 0 = [0, 1, 2] ∧ scanDir true 0 = 1 := by
  have H := C3_serpentine_scan 2 3 (le_refl 2)
  have h1 := H.1 1 (by norm_num) rfl
  have h0 := H.2.1 0 (by norm_num) rfl
  exact ⟨le_refl 2, by rw [h1.1]; rfl, h1.2.1, by rw [h0.1]; rfl, h0.2.1⟩

end Dither

namespace Dither

/-! ## Ordered dithering (`ORDERED_MATRICES` and `_ordered_dither`,
`dithering_tool.py` lines 173-215 and 485-501) -/

def bayer2_matrix : List (List ℚ) :=
  [[0/4, 2/4], [3/4, 1/4]]

def bayer4_matrix : List (List ℚ) :=
  [[0/16, 8/16, 2/16, 10/16],
   [12/16, 4/16, 14/16, 6/16],
   [3/16, 11/16, 1/16, 9/16],
   [15/16, 7/16, 13/16, 5/16]]

def bayer8_matrix : List (List ℚ) :=
  [[0/64, 32/64, 8/64, 40/64, 2/64, 34/64, 10/64, 42/64],
   [48/64, 16/64, 56/64, 24/64, 50/64, 18/64, 58/64, 26/64],
   [12/64, 44/64, 4/64, 36/64, 14/64, 46/64, 6/64, 38/64],
   [60/64, 28/64, 52/64, 20/64, 62/64, 30/64, 54/64, 22/64],
   [3/64, 35/64, 11/64, 43/64, 1/64, 33/64, 9/64, 41/64],
   [51/64, 19/64, 59/64, 27/64, 49/64, 17/64, 57/64, 25/64],
   [15/64, 47/64, 7/64, 39/64, 13/64, 45/64, 5/64, 37/64],
   [63/64, 31/64, 55/64, 23/64, 61/64, 29/64, 53/64, 21/64]]

def clustered_dot_matrix : List (List ℚ) :=
  [[8/16, 3/16, 4/16, 9/16],
   [2/16, 1/16, 0/16, 5/16],
   [7/16, 6/16, 11/16, 10/16],
   [12/16, 13/16, 14/16, 15/16]]

/-- The ordered-matrix registry of `dithering_tool.py` (`ORDERED_MATRICES`). -/
def ORDERED_MATRICES : List (String × List (List ℚ)) :=
  [("Bayer 2x2", bayer2_matrix),
   ("Bayer 4x4", bayer4_matrix),
   ("Bayer 8x8", bayer8_matrix),
   ("Clustered Dot (ordered)", clustered_dot_matrix)]

/-- `matrix[r][c]` for a row-list matrix. -/
def matrixAt (matrix : List (List ℚ)) (r c : Nat) : ℚ :=
  (matrix.getD r []).getD c 0

/-- `DitheringEngine._ordered_dither`: per pixel, add the tiled threshold
offset `(matrix[y % th, x % tw] - 0.5) / max(len(palette), 2)`, clamp, and
write the nearest palette colour to the output buffer (`np.zeros_like`). -/
def ordered_dither (h w c : Nat) (palette : List Colour)
    (matrix : List (List ℚ)) (image : Buf) : Buf :=
  let tile_h := matrix.length
  let tile_w := (matrix.headD []).length
  (List.range h).foldl
    (fun out y =>
      (List.range w).foldl
        (fun out2 x =>
          writeAt out2 y x
            (chosenColour c palette
              (fun ch => clamp01 (image y x ch
                + (matrixAt matrix (y % tile_h) (x % tile_w) - 1/2)
                  / (max palette.length 2 : ℚ)))))
        out)
    (fun _ _ _ => 0)

/-- Modelled from the spec: ordered dithering whose bias is
`(thresholdValue - 0.5)` scaled by `1/(paletteSize - 1)`, as the claim
words it.  Built for comparison with `ordered_dither`, which the source
defines with `offset / max(len(palette), 2)`. -/
def spec_ordered_dither (h w c : Nat) (palette : List Colour)
    (matrix : List (List ℚ)) (image : Buf) : Buf :=
  let tile_h := matrix.length
  let tile_w := (matrix.headD []).length
  (List.range h).foldl
    (fun out y =>
      (List.range w).foldl
        (fun out2 x =>
          writeAt out2 y x
            (chosenColour c palette
              (fun ch => clamp01 (image y x ch
                + (matrixAt matrix (y % tile_h) (x % tile_w) - 1/2)
                  * (1 / ((palette.length : ℚ) - 1))))))
        out)
    (fun _ _ _ => 0)

end Dither

namespace Dither

/-- The write-only pixel step of ordered dithering is localized. -/
theorem writeStep_localized (f : Nat × Nat → Colour) :
    Localized (fun out p => writeAt out p.1 p.2 (f p)) := by
  intro b q j i ch hnot
  push_neg at hnot
  show writeAt b q.1 q.2 (f q) j i ch = b j i ch
  simp only [writeAt]
  rw [if_neg]
  rintro ⟨h1, h2⟩
  exact hnot.1 (by rw [h1, h2])

/-- Evaluation of a pure per-pixel write scan at any visited pixel. -/
theorem foldl_writeStep_eval (f : Nat × Nat → Colour) (h w : Nat) (b : Buf)
    (y x ch : Nat) (hy : y < h) (hx : x < w) :
    ((rowMajorPos h w).foldl (fun out p => writeAt out p.1 p.2 (f p)) b) y x ch
      = f (y, x) ch := by
  have hfold := foldl_localized_pred
    (fun out p => writeAt out p.1 p.2 (f p))
    (fun p ch2 v => v = f p ch2)
    (writeStep_localized f)
    (fun b2 q ch2 => by
      show writeAt b2 q.1 q.2 (f q) q.1 q.2 ch2 = f q ch2
      simp [writeAt])
    (rowMajorPos h w) b (pairwise_rowMajorPos h w) (y, x)
    (mem_rowMajorPos.mpr ⟨hy, hx⟩) ch
  exact hfold

/-- C4 amended: the bias the ordered ditherer adds before nearest-colour
selection is `(thresholdValue - 0.5) / max(N, 2)` — i.e. divided by the
palette size `N` (not `N - 1`) — and that bias never exceeds
`1 / (2 * max(N, 2))` in magnitude for threshold values in `[0, 1]`.  The
output pixel is the nearest palette colour to the clamped biased value. -/
theorem C4_ordered_dither_bias (h w c : Nat) (palette : List Colour)
    (matrix : List (List ℚ)) (image : Buf) (y x ch : Nat)
    (hy : y < h) (hx : x < w) :
    (ordered_dither h w c palette matrix image y x ch
      = chosenColour c palette
          (fun ch2 => clamp01 (image y x ch2
            + (matrixAt matrix (y % matrix.length) (x % (matrix.headD []).length)
                - 1/2) / (max palette.length 2 : ℚ))) ch) ∧
    (∀ t : ℚ, 0 ≤ t → t ≤ 1 →
      |(t - 1/2) / (max palette.length 2 : ℚ)|
        ≤ 1 / (2 * (max palette.length 2 : ℚ))) := by
  constructor
  · have heq : ordered_dither h w c palette matrix image
        = (rowMajorPos h w).foldl
            (fun out p => writeAt out p.1 p.2
              (chosenColour c palette
                (fun ch2 => clamp01 (image p.1 p.2 ch2
                  + (matrixAt matrix (p.1 % matrix.length)
                      (p.2 % (matrix.headD []).length) - 1/2)
                    / (max palette.length 2 : ℚ)))))
            (fun _ _ _ => 0) := by
      unfold ordered_dither
      rw [foldl_rowMajor]
    rw [heq, foldl_writeStep_eval _ h w _ y x ch hy hx]
  · intro t ht0 ht1
    have hN : (2 : ℚ) ≤ (max palette.length 2 : ℚ) := by
      have : (2 : Nat) ≤ max palette.length 2 := le_max_right _ _
      exact_mod_cast this
    have hNpos : (0 : ℚ) < (max palette.length 2 : ℚ) := by linarith
    rw [abs_div, abs_of_pos hNpos, div_le_div_iff hNpos (by linarith)]
    have habs : |t - 1/2| ≤ 1/2 := by
      rw [abs_le]
      constructor <;> linarith
    nlinarith [abs_nonneg (t - 1/2)]

/-- A 1-by-1 constant test image of value 0.45. -/
def img45 : Buf := fun _ _ _ => 9/20

/-- A three-colour grayscale palette 0, 1/2, 1. -/
def pal3 : List Colour := [fun _ => 0, fun _ => 1/2, fun _ => 1]

/-- C4 counterexample: the claim fails on the code.  With the palette
(0, 1/2, 1) of size N = 3, threshold value 0 (Bayer 2x2 at (0,0)) and
pixel value 0.45, the source divides the bias by `max(N, 2) = 3`, giving
noisy value 0.45 - 1/6 whose nearest colour is 1/2; the claimed scaling by
`1/(N-1) = 1/2` would give 0.45 - 1/4 = 0.2, whose nearest colour is 0. -/
theorem C4_ordered_dither_counterexample :
    ordered_dither 1 1 1 pal3 bayer2_matrix img45 0 0 0 = 1/2 ∧
      spec_ordered_dither 1 1 1 pal3 bayer2_matrix img45 0 0 0 = 0 ∧
      ordered_dither 1 1 1 pal3 bayer2_matrix img45 0 0 0 ≠
        spec_ordered_dither 1 1 1 pal3 bayer2_matrix img45 0 0 0 := by
  refine ⟨?_, ?_, ?_⟩ <;>
    norm_num [ordered_dither, spec_ordered_dither, writeAt, chosenColour,
      argmin_distance, argminAux, sqDist, clamp01, clip, matrixAt, img45,
      pal3, bayer2_matrix, List.range_succ, max_def, min_def]

/-- Concrete instance of `C4_ordered_dither_bias` on a 1-by-1 image. -/
theorem C4_ordered_dither_bias_witness :
    ((0 : Nat) < 1 ∧ (0 : ℚ) ≤ 1/4 ∧ (1/4 : ℚ) ≤ 1) ∧
      ordered_dither 1 1 1 pal3 bayer2_matrix img45 0 0 0
        = chosenColour 1 pal3
            (fun ch2 => clamp01 (img45 0 0 ch2
              + (matrixAt bayer2_matrix (0 % bayer2_matrix.length)
                  (0 % (bayer2_matrix.headD []).length) - 1/2)
                / (max pal3.length 2 : ℚ))) 0 ∧
      |((1/4 : ℚ) - 1/2) / (max pal3.length 2 : ℚ)|
        ≤ 1 / (2 * (max pal3.length 2 : ℚ)) := by
  have H := C4_ordered_dither_bias 1 1 1 pal3 bayer2_matrix img45 0 0 0
    Nat.one_pos Nat.one_pos
  exact ⟨⟨Nat.one_pos, by norm_num, by norm_num⟩, H.1,
    H.2 (1/4) (by norm_num) (by norm_num)⟩

end Dither

namespace Dither

/-! ## Palette generation (`PRESET_PALETTES` and
`DitheringEngine.generate_palette`, `dithering_tool.py` 218-256, 370-400) -/

/-- An RGB triple. -/
abbrev Vec3 : Type := ℚ × ℚ × ℚ

def gameboy_palette : List (Nat × Nat × Nat) :=
  [(15, 56, 15), (48, 98, 48), (139, 172, 15), (155, 188, 15)]

def nes_palette : List (Nat × Nat × Nat) :=
  [(124, 124, 124), (0, 0, 252), (0, 0, 188), (68, 40, 188),
   (148, 0, 132), (168, 0, 32), (168, 16, 0), (136, 20, 0),
   (80, 48, 0), (0, 120, 0), (0, 104, 0), (0, 88, 0),
   (0, 64, 88), (0, 0, 0), (188, 188, 188), (0, 120, 248)]

def cga_palette : List (Nat × Nat × Nat) :=
  [(0, 0, 0), (0, 0, 170), (0, 170, 0), (0, 170, 170),
   (170, 0, 0), (170, 0, 170), (170, 85, 0), (170, 170, 170),
   (85, 85, 85), (85, 85, 255), (85, 255, 85), (85, 255, 255),
   (255, 85, 85), (255, 85, 255), (255, 255, 85), (255, 255, 255)]

/-- The preset palette catalog of `dithering_tool.py` (8-bit channel
values). -/
def PRESET_PALETTES : List (String × List (Nat × Nat × Nat)) :=
  [("GameBoy (4 colors)", gameboy_palette),
   ("NES (16 colors)", nes_palette),
   ("CGA (16 colors)", cga_palette)]

/-- Divide an 8-bit colour triple by 255 (`np.array(...) / 255.0`). -/
def toUnitColour (p : Nat × Nat × Nat) : Vec3 :=
  ((p.1 : ℚ) / 255, (p.2.1 : ℚ) / 255, (p.2.2 : ℚ) / 255)

/-- `np.linspace(0, 1, n)` for `n ≥ 2`: `i / (n - 1)`. -/
def linspace01 (n : Nat) : List ℚ :=
  (List.range n).map (fun i : Nat => (i : ℚ) / ((n : ℚ) - 1))

def customModeStr : String := "Custom"

/-- `DitheringEngine.generate_palette`.  `num_colors` is clamped below by
2 (`max(2, int(settings.num_colors))`).  The branch order follows the
source: a loaded custom palette (for a mode starting with Custom) is
truncated to `n` entries; Grayscale builds an even ramp; a preset palette
is truncated to `n`; any other mode derives an adaptive palette with
Pillow's median-cut quantizer — an external library call, returned here as
`none` and out of scope for the palette-shape claims. -/
def generate_palette (mode : String) (num_colors : Int)
    (custom : Option (List Vec3)) : Option (List Vec3) :=
  let n := (max 2 num_colors).toNat
  if custom.isSome ∧ mode.startsWith customModeStr then
    some ((custom.getD []).take n)
  else if mode = "Grayscale" then
    some ((linspace01 n).map (fun v => (v, v, v)))
  else
    match PRESET_PALETTES.lookup mode with
    | some pal => some ((pal.map toUnitColour).take n)
    | none => none

def gameboyName : String := "GameBoy (4 colors)"

def grayscaleName : String := "Grayscale"

end Dither

namespace Dither

/-- The preset branch of `generate_palette`: the catalog palette scaled to
unit range and truncated to `max(2, num_colors)` entries. -/
theorem generate_palette_preset_eq (name : String)
    (pal : List (Nat × Nat × Nat)) (k : Int)
    (hlook : PRESET_PALETTES.lookup name = some pal) :
    generate_palette name k none
      = some ((pal.map toUnitColour).take (max 2 k).toNat) := by
  have hng : ¬ name = "Grayscale" := by
    intro heq
    rw [heq] at hlook
    have : PRESET_PALETTES.lookup "Grayscale" = none := by decide
    rw [this] at hlook
    exact Option.noConfusion hlook
  simp only [generate_palette, Option.isSome_none, Bool.false_eq_true,
    false_and, if_false, if_neg hng, hlook]

/-- The custom branch of `generate_palette`: the loaded palette truncated
to `max(2, num_colors)` entries, as-is. -/
theorem generate_palette_custom_eq (custom : List Vec3) (mode : String)
    (k : Int) (hstart : mode.startsWith customModeStr = true) :
    generate_palette mode k (some custom)
      = some (custom.take (max 2 k).toNat) := by
  simp [generate_palette, hstart]

/-- C5 counterexample: the claim fails on the code.  Requesting 8 colours
from the 4-colour GameBoy preset returns the whole 4-entry palette — NumPy
slicing `palette[:8]` never tiles — so the result has 4 entries, not 8,
and there is no entry at index `len(original)` at all. -/
theorem C5_truncation_counterexample :
    (generate_palette gameboyName 8 none).map List.length = some 4 ∧
      ¬ (generate_palette gameboyName 8 none).map List.length = some 8 := by
  constructor <;> decide

/-- C5 amended: `generate_palette` always truncates, never tiles.  For any
preset mode, the result is the first `max(2, colourCount)` entries of the
preset (scaled to unit range); for a loaded custom palette likewise.  When
`colourCount` is at least the palette's length, the result is the whole
palette unchanged and is shorter than requested. -/
theorem C5_palette_truncation :
    (∀ (name : String) (pal : List (Nat × Nat × Nat)) (k : Int),
        PRESET_PALETTES.lookup name = some pal →
        generate_palette name k none
          = some ((pal.map toUnitColour).take (max 2 k).toNat)) ∧
    (∀ (custom : List Vec3) (mode : String) (k : Int),
        mode.startsWith customModeStr = true →
        generate_palette mode k (some custom)
          = some (custom.take (max 2 k).toNat)) ∧
    (∀ (name : String) (pal : List (Nat × Nat × Nat)) (k : Int),
        PRESET_PALETTES.lookup name = some pal →
        pal.length ≤ (max 2 k).toNat →
        generate_palette name k none = some (pal.map toUnitColour)) := by
  refine ⟨generate_palette_preset_eq, generate_palette_custom_eq, ?_⟩
  intro name pal k hlook hlen
  rw [generate_palette_preset_eq name pal k hlook, List.take_of_length_le]
  rw [List.length_map]
  exact hlen

/-- Concrete instance of `C5_palette_truncation`: requesting 2 colours
from the GameBoy preset yields its first 2 entries. -/
theorem C5_palette_truncation_witness :
    PRESET_PALETTES.lookup gameboyName = some gameboy_palette ∧
      generate_palette gameboyName 2 none
        = some ((gameboy_palette.map toUnitColour).take (max 2 (2 : Int)).toNat) := by
  have hlook : PRESET_PALETTES.lookup gameboyName = some gameboy_palette := by
    decide
  exact ⟨hlook, C5_palette_truncation.1 gameboyName gameboy_palette 2 hlook⟩

end Dither

namespace Dither

/-! ## Algorithm dispatch (C6): `DitheringEngine.dither` 421-430 and
`ImageProcessor._apply_pipeline` line 280 -/

/-- The routine `DitheringEngine.dither` selects for an algorithm name. -/
inductive DitherRoutine where
  | diffusion (kernel : List KernelEntry)
  | ordered (matrix : List (List ℚ))
  | random

/-- The dispatch chain of `DitheringEngine.dither`: error-diffusion
catalog, then ordered catalog, then Random, otherwise the commented
`# Fallback to Floyd-Steinberg` branch, which calls `_error_diffusion`
whose kernel lookup `ERROR_DIFFUSION_KERNELS.get(alg) or [Floyd-Steinberg]`
yields the Floyd-Steinberg kernel for an unknown name. -/
def ditherRoutine (name : String) : DitherRoutine :=
  match ERROR_DIFFUSION_KERNELS.lookup name with
  | some k => DitherRoutine.diffusion k
  | none =>
    match ORDERED_MATRICES.lookup name with
    | some m => DitherRoutine.ordered m
    | none =>
      if name = "Random" then DitherRoutine.random
      else DitherRoutine.diffusion
        ((ERROR_DIFFUSION_KERNELS.lookup name).getD floyd_steinberg_kernel)

/-- A registered algorithm of `app/core/dithering.py`: one of the three
error-diffusion routines, or a pattern/threshold-family routine. -/
inductive AppAlgo where
  | diffusion (matrix : List KernelEntry)
  | patternFamily

/-- The `DITHER_ALGORITHMS` registry of `app/core/dithering.py` (19 keys,
source order).  `ImageProcessor._apply_pipeline` indexes it with
`DITHER_ALGORITHMS[request.algorithm]` before any pixel work; a missing
key raises `KeyError` there. -/
def DITHER_ALGORITHMS : List (String × AppAlgo) :=
  [("Floyd-Steinberg", AppAlgo.diffusion app_floyd_steinberg_matrix),
   ("Jarvis-Judice-Ninke", AppAlgo.diffusion app_jarvis_judice_ninke_matrix),
   ("Sierra", AppAlgo.diffusion app_sierra_matrix),
   ("Row Modulation", AppAlgo.patternFamily),
   ("Column Modulation", AppAlgo.patternFamily),
   ("Dispersed Modulation", AppAlgo.patternFamily),
   ("Medium Modulation", AppAlgo.patternFamily),
   ("Heavy Modulation", AppAlgo.patternFamily),
   ("Circuit Modulation", AppAlgo.patternFamily),
   ("Tilt Modulation", AppAlgo.patternFamily),
   ("Pattern Matrix", AppAlgo.patternFamily),
   ("Random Threshold", AppAlgo.patternFamily),
   ("Blue Noise Cluster", AppAlgo.patternFamily),
   ("Dot Screen", AppAlgo.patternFamily),
   ("Line Screen", AppAlgo.patternFamily),
   ("Radial Rings", AppAlgo.patternFamily),
   ("Spiral Waves", AppAlgo.patternFamily),
   ("Diamond Mesh", AppAlgo.patternFamily),
   ("Glitch Strata", AppAlgo.patternFamily)]

/-- Association-list lookup misses exactly the keys that are absent. -/
theorem lookup_eq_none_of_not_mem {β : Type} (l : List (String × β)) (a : String)
    (ha : a ∉ l.map Prod.fst) : l.lookup a = none := by
  induction l with
  | nil => rfl
  | cons p rest ih =>
    simp only [List.map_cons, List.mem_cons] at ha
    push_neg at ha
    have hbeq : (a == p.1) = false := beq_eq_false_iff_ne.mpr ha.1
    rw [List.lookup_cons, hbeq]
    exact ih ha.2

def bogusName : String := "No Such Algorithm"

def bogus2Name : String := "Bogus"

def floydSteinbergName : String := "Floyd-Steinberg"

/-- C6 counterexample: the claim fails on the code.  The name
"No Such Algorithm" is in neither catalog and is not "Random", yet
`DitheringEngine.dither` silently runs Floyd-Steinberg for it — the very
same routine as for the name "Floyd-Steinberg" — instead of raising an
error. -/
theorem C6_unknown_algorithm_counterexample :
    bogusName ∉ ERROR_DIFFUSION_KERNELS.map Prod.fst ∧
      bogusName ∉ ORDERED_MATRICES.map Prod.fst ∧
      bogusName ≠ "Random" ∧
      ditherRoutine bogusName = DitherRoutine.diffusion floyd_steinberg_kernel ∧
      ditherRoutine bogusName = ditherRoutine floydSteinbergName := by
  refine ⟨by decide, by decide, by decide, rfl, rfl⟩

/-- C6 amended: the app/core orchestrator resolves the algorithm name in
its registry before any pixel work and an unregistered name fails the
lookup (raising KeyError); the standalone `DitheringEngine.dither`,
however, silently substitutes Floyd-Steinberg for an unknown name instead
of raising. -/
theorem C6_unknown_algorithm :
    (∀ name : String, name ∉ DITHER_ALGORITHMS.map Prod.fst →
        DITHER_ALGORITHMS.lookup name = none) ∧
    (∀ name : String,
        name ∉ ERROR_DIFFUSION_KERNELS.map Prod.fst →
        name ∉ ORDERED_MATRICES.map Prod.fst →
        name ≠ "Random" →
        ditherRoutine name = DitherRoutine.diffusion floyd_steinberg_kernel) := by
  constructor
  · intro name hname
    exact lookup_eq_none_of_not_mem _ _ hname
  · intro name h1 h2 h3
    unfold ditherRoutine
    rw [lookup_eq_none_of_not_mem _ _ h1, lookup_eq_none_of_not_mem _ _ h2]
    simp [h3]

/-- Concrete instance of `C6_unknown_algorithm` at the name "Bogus". -/
theorem C6_unknown_algorithm_witness :
    DITHER_ALGORITHMS.lookup bogus2Name = none ∧
      ditherRoutine bogus2Name = DitherRoutine.diffusion floyd_steinberg_kernel :=
  ⟨C6_unknown_algorithm.1 bogus2Name (by decide),
    C6_unknown_algorithm.2 bogus2Name (by decide) (by decide) (by decide)⟩

end Dither

namespace Dither

/-! ## Preset palette catalogs (C9): `app/core/colour_modes.py` 43-198 and
`app/core/image_processor.py` 30-145 -/

/-- Value of one hexadecimal digit character (`int(c, 16)` for a valid
digit). -/
def hexDigitVal (ch : Char) : Nat :=
  if ch.isDigit then ch.toNat - 48
  else if ch.isLower then ch.toNat - 87
  else ch.toNat - 55

/-- `value.lstrip("#")`. -/
def dropLeadingHash : List Char → List Char
  | c :: rest => if c = '#' then dropLeadingHash rest else c :: rest
  | [] => []

/-- `ImageProcessor._hex_to_rgb`: strict `#RRGGBB` decoding.  For a
malformed literal the source raises `ValueError`; the catalogs below only
hold 6-digit literals, for which this returns the decoded triple. -/
def hex_to_rgb (s : String) : Nat × Nat × Nat :=
  match dropLeadingHash s.toList with
  | [r1, r2, g1, g2, b1, b2] =>
      (16 * hexDigitVal r1 + hexDigitVal r2,
       16 * hexDigitVal g1 + hexDigitVal g2,
       16 * hexDigitVal b1 + hexDigitVal b2)
  | _ => (0, 0, 0)

def gb_dmg_app_palette : List (Nat × Nat × Nat) :=
  [(15, 56, 15), (48, 98, 48), (139, 172, 15), (155, 188, 15)]

def gb_pocket_app_palette : List (Nat × Nat × Nat) :=
  [(26, 28, 32), (96, 104, 96), (176, 184, 172), (240, 248, 240)]

def cga_mode1_app_palette : List (Nat × Nat × Nat) :=
  [(0, 0, 0), (85, 255, 255), (255, 85, 255), (255, 255, 255)]

def cga_mode2_app_palette : List (Nat × Nat × Nat) :=
  [(0, 0, 0), (255, 0, 0), (0, 255, 0), (255, 255, 0)]

def ega16_app_palette : List (Nat × Nat × Nat) :=
  [(0, 0, 0), (0, 0, 170), (0, 170, 0), (0, 170, 170),
   (170, 0, 0), (170, 0, 170), (170, 85, 0), (170, 170, 170),
   (85, 85, 85), (85, 85, 255), (85, 255, 85), (85, 255, 255),
   (255, 85, 85), (255, 85, 255), (255, 255, 85), (255, 255, 255)]

def c64_app_palette : List (Nat × Nat × Nat) :=
  [(0, 0, 0), (255, 255, 255), (136, 0, 0), (170, 255, 238),
   (204, 68, 204), (0, 204, 85), (0, 0, 170), (238, 238, 119),
   (221, 136, 85), (102, 68, 0), (255, 119, 119), (51, 51, 51),
   (119, 119, 119), (170, 255, 102), (0, 136, 255), (187, 187, 187)]

def amiga32_app_palette : List (Nat × Nat × Nat) :=
  [(0, 0, 0), (68, 68, 68), (136, 136, 136), (255, 255, 255),
   (255, 68, 68), (255, 153, 68), (255, 238, 68), (153, 255, 68),
   (68, 255, 153), (68, 204, 255), (68, 102, 255), (153, 68, 255),
   (238, 68, 255), (255, 68, 170), (255, 204, 204), (204, 255, 238)]

def apple2_app_palette : List (Nat × Nat × Nat) :=
  [(0, 0, 0), (255, 255, 255), (255, 68, 0), (204, 0, 255),
   (0, 221, 0), (0, 204, 255), (255, 204, 0), (0, 0, 221)]

/-- The "ZX Spectrum" palette of `app/core/colour_modes.py` (lines
156-176): the eight dim colours followed by the eight bright colours —
dim black and bright black are both (0, 0, 0). -/
def zx_spectrum_app_palette : List (Nat × Nat × Nat) :=
  [(0, 0, 0), (0, 0, 205), (205, 0, 0), (205, 0, 205),
   (0, 205, 0), (0, 205, 205), (205, 205, 0), (205, 205, 205),
   (0, 0, 0), (0, 0, 255), (255, 0, 0), (255, 0, 255),
   (0, 255, 0), (0, 255, 255), (255, 255, 0), (255, 255, 255)]

def atari_st_app_palette : List (Nat × Nat × Nat) :=
  [(0, 0, 0), (255, 255, 255), (255, 0, 0), (0, 255, 0),
   (0, 0, 255), (255, 255, 0), (255, 0, 255), (0, 255, 255),
   (128, 64, 0), (128, 0, 128), (0, 128, 128), (255, 128, 0),
   (0, 128, 255), (128, 255, 0), (255, 0, 128), (128, 128, 128)]

/-- `_PRESET_PALETTES` of `app/core/colour_modes.py`, in source order. -/
def APP_PRESET_PALETTES : List (String × List (Nat × Nat × Nat)) :=
  [("Game Boy DMG", gb_dmg_app_palette),
   ("Game Boy Pocket", gb_pocket_app_palette),
   ("CGA Mode 1", cga_mode1_app_palette),
   ("CGA Mode 2", cga_mode2_app_palette),
   ("EGA 16", ega16_app_palette),
   ("Commodore 64", c64_app_palette),
   ("Amiga 32", amiga32_app_palette),
   ("Apple II", apple2_app_palette),
   ("ZX Spectrum", zx_spectrum_app_palette),
   ("Atari ST", atari_st_app_palette)]

/-- The non-empty entries of `PALETTE_LIBRARY` in
`app/core/image_processor.py`, hex literals verbatim.  ("Disabled" and
"Custom Two-Tone" map to empty tuples there and are resolved to no palette
at all by `_resolve_palette`, not to palettes.) -/
def PALETTE_LIBRARY : List (String × List String) :=
  [("Mono Silver", ["#101010", "#f0f0f0"]),
   ("Duotone Warm", ["#2f1100", "#b85c38", "#ffd7a3"]),
   ("Duotone Cool", ["#050029", "#413075", "#9ad6f5"]),
   ("Game Boy DMG", ["#0f380f", "#306230", "#8bac0f", "#9bbc0f"]),
   ("Game Boy Pocket", ["#1a1d21", "#394b59", "#6a8c8f", "#b9d8c2"]),
   ("Virtual Boy", ["#120000", "#400000", "#a00000", "#ff0040"]),
   ("CGA 4-Color", ["#000000", "#00a8a8", "#a800a8", "#a8a8a8"]),
   ("CGA 16-Color",
    ["#000000", "#0000aa", "#00aa00", "#00aaaa",
     "#aa0000", "#aa00aa", "#aa5500", "#aaaaaa",
     "#555555", "#5555ff", "#55ff55", "#55ffff",
     "#ff5555", "#ff55ff", "#ffff55", "#ffffff"]),
   ("Commodore 64",
    ["#000000", "#ffffff", "#68372b", "#70a4b2",
     "#6f3d86", "#588d43", "#352879", "#b8c76f",
     "#6f4f25", "#433900", "#9a6759", "#444444",
     "#6c6c6c", "#9ad284", "#6c5eb5", "#959595"]),
   ("ZX Spectrum",
    ["#000000", "#0000d7", "#d70000", "#d700d7",
     "#00d700", "#00d7d7", "#d7d700", "#ffffff"]),
   ("Amiga 16",
    ["#000000", "#1a1a1a", "#5a1a4a", "#8a2142",
     "#c74136", "#ff784f", "#ffc36f", "#ffe29f",
     "#1a3a5a", "#24567a", "#2d80a3", "#47a6c6",
     "#6bcedf", "#9af3f5", "#d4fdfd", "#ffffff"]),
   ("Apple II",
    ["#000000", "#1bcb02", "#f704d9", "#f7f7f7", "#1bcbf7", "#f7cb02"]),
   ("NES",
    ["#7c7c7c", "#0000fc", "#a80020", "#f83800", "#f8b800",
     "#b8f818", "#58f898", "#0088f8", "#f878f8", "#f8f8f8"]),
   ("SNES Pastel",
    ["#1b1b3a", "#693668", "#a74482", "#f84aa7",
     "#ff99c8", "#acdcff", "#96f7d2", "#f9f871"]),
   ("Atari 2600",
    ["#000000", "#f0f0f0", "#a80000", "#f08030",
     "#008858", "#2ce8a4", "#1c3cc4", "#b4b4ff"]),
   ("IBM PC Amber", ["#000000", "#ffbf00"]),
   ("IBM PC Green", ["#001b00", "#00ff00"]),
   ("Vaporwave", ["#2d1b64", "#ff71ce", "#01cdfe", "#05ffa1", "#b967ff"]),
   ("Cyberpunk Neon", ["#050d1a", "#14f195", "#ff3864", "#ffe66d"]),
   ("CMYK Print", ["#000000", "#00aaff", "#ff00aa", "#ffee00", "#ffffff"]),
   ("RGB CRT", ["#050505", "#ff4444", "#44ff44", "#4444ff", "#f7f7f7"]),
   ("Sepia Print", ["#1b0b00", "#8c4a2f", "#f2d4a4"]),
   ("Blueprint", ["#081f2c", "#0f4c75", "#bbe1fa", "#ffffff"])]

end Dither

namespace Dither

/-- The custom palette mode string of the standalone tool
("Custom Palette (load…)" in the palette combo box); `generate_palette`
recognizes it through `mode.startswith("Custom")`. -/
def customLoadedModeStr : String := "Custom Palette (load…)"

/-- A loaded custom palette containing black twice, then white. -/
def dupCustomPalette : List Vec3 := [(0, 0, 0), (0, 0, 0), (1, 1, 1)]

/-- A loaded custom palette with a single colour. -/
def shortCustomPalette : List Vec3 := [(0, 0, 0)]

/-- "Custom Palette (load…)" starts with "Custom". -/
theorem customLoadedModeStr_startsWith :
    customLoadedModeStr.startsWith customModeStr = true := by
  simp only [customLoadedModeStr, customModeStr, String.startsWith]
  simp +decide [Substring.hasBeq, Substring.beq, String.substrEq,
    String.substrEq.loop, Substring.take, Substring.nextn, Substring.next,
    String.next, String.get, String.utf8GetAux, Substring.bsize,
    String.toSubstring, String.endPos, String.utf8ByteSize,
    String.utf8ByteSize.go, Char.utf8Size]

/-- Scaling an 8-bit triple into unit range is injective. -/
theorem toUnitColour_injective : Function.Injective toUnitColour := by
  rintro ⟨a1, a2, a3⟩ ⟨b1, b2, b3⟩ h
  simp only [toUnitColour, Prod.mk.injEq] at h
  obtain ⟨h1, h2, h3⟩ := h
  have e1 : a1 = b1 := by
    have hq : (a1 : ℚ) = (b1 : ℚ) := by linarith
    exact_mod_cast hq
  have e2 : a2 = b2 := by
    have hq : (a2 : ℚ) = (b2 : ℚ) := by linarith
    exact_mod_cast hq
  have e3 : a3 = b3 := by
    have hq : (a3 : ℚ) = (b3 : ℚ) := by linarith
    exact_mod_cast hq
  simp [e1, e2, e3]

/-- A successful association-list lookup returns a catalog entry. -/
theorem mem_of_lookup_eq_some {β : Type} {l : List (String × β)} {a : String}
    {b : β} (h : l.lookup a = some b) : (a, b) ∈ l := by
  induction l with
  | nil => exact Option.noConfusion h
  | cons p rest ih =>
    rw [List.lookup_cons] at h
    rcases hbeq : (a == p.1) with _ | _
    · rw [hbeq] at h
      exact List.mem_cons_of_mem _ (ih h)
    · rw [hbeq] at h
      have hab : a = p.1 := beq_iff_eq.mp hbeq
      have hpb : p.2 = b := Option.some.inj h
      rw [hab, ← hpb]
      exact List.mem_cons_self _ _

/-- The Grayscale branch of `generate_palette` always yields at least 2
pairwise distinct grey levels (`np.linspace(0, 1, n)` is injective for
`n ≥ 2`). -/
theorem generate_palette_grayscale_ok (k : Int) :
    ∃ l, generate_palette grayscaleName k none = some l ∧
      2 ≤ l.length ∧ l.Nodup := by
  have h2 : 2 ≤ (max 2 k).toNat := by
    have := le_max_left 2 k
    omega
  have hinj : Function.Injective
      (fun i : Nat => (i : ℚ) / ((((max 2 k).toNat : ℚ)) - 1)) := by
    intro i j hij
    have hc : (1 : ℚ) ≤ (((max 2 k).toNat : ℚ)) - 1 := by
      have : (2 : ℚ) ≤ (((max 2 k).toNat : ℚ)) := by exact_mod_cast h2
      linarith
    have hc0 : (((max 2 k).toNat : ℚ)) - 1 ≠ 0 := by linarith
    field_simp [hc0] at hij
    exact_mod_cast hij
  have hls : (linspace01 (max 2 k).toNat).Nodup :=
    (List.nodup_range _).map hinj
  have htrip : Function.Injective (fun v : ℚ => (v, v, v)) := by
    intro a b hab
    simp only [Prod.mk.injEq] at hab
    exact hab.1
  refine ⟨(linspace01 (max 2 k).toNat).map (fun v => (v, v, v)), ?_, ?_,
    hls.map htrip⟩
  · simp [generate_palette, grayscaleName]
  · simp only [List.length_map, linspace01, List.length_range]
    exact h2

/-- Truncating a duplicate-free preset palette keeps it duplicate-free and
at least 2 entries long (the clamp `max(2, num_colors)` and the preset
lengths guarantee the size). -/
theorem generate_palette_preset_ok (name : String)
    (pal : List (Nat × Nat × Nat)) (k : Int)
    (hlook : PRESET_PALETTES.lookup name = some pal)
    (hlen : 2 ≤ pal.length) (hnd : pal.Nodup) :
    ∃ l, generate_palette name k none = some l ∧ 2 ≤ l.length ∧ l.Nodup := by
  have h2 : 2 ≤ (max 2 k).toNat := by
    have := le_max_left 2 k
    omega
  refine ⟨(pal.map toUnitColour).take (max 2 k).toNat,
    generate_palette_preset_eq name pal k hlook, ?_, ?_⟩
  · rw [List.length_take, List.length_map]
    omega
  · exact List.Nodup.sublist (List.take_sublist _ _)
      (hnd.map toUnitColour_injective)

/-- C9 counterexample: the claim fails on the code in two places.  The
"ZX Spectrum" preset in `app/core/colour_modes.py` has 16 entries but
contains (0, 0, 0) twice — dim black at index 0 and bright black at index
8 — so a shipped preset palette is not duplicate-free.  And palette
construction does not enforce the invariant either: `generate_palette` in
custom mode returns the loaded list as-is (`palette[:num_colors]`), so a
custom palette with black listed twice comes back with the duplicate
intact, and a single-colour custom palette comes back with fewer than 2
entries. -/
theorem C9_palette_counterexample :
    (("ZX Spectrum", zx_spectrum_app_palette) ∈ APP_PRESET_PALETTES ∧
      zx_spectrum_app_palette.getD 0 (1, 1, 1) = (0, 0, 0) ∧
      zx_spectrum_app_palette.getD 8 (1, 1, 1) = (0, 0, 0) ∧
      ¬ zx_spectrum_app_palette.Nodup) ∧
    (generate_palette customLoadedModeStr 8 (some dupCustomPalette)
        = some dupCustomPalette ∧
      ¬ dupCustomPalette.Nodup) ∧
    (generate_palette customLoadedModeStr 8 (some shortCustomPalette)
        = some shortCustomPalette ∧
      shortCustomPalette.length < 2) := by
  have hdup := generate_palette_custom_eq dupCustomPalette customLoadedModeStr 8
    customLoadedModeStr_startsWith
  have hshort := generate_palette_custom_eq shortCustomPalette customLoadedModeStr 8
    customLoadedModeStr_startsWith
  refine ⟨⟨by decide, by decide, by decide, by decide⟩, ⟨?_, ?_⟩, ⟨?_, by decide⟩⟩
  · rw [hdup, List.take_of_length_le]
    decide
  · simp [dupCustomPalette]
  · rw [hshort, List.take_of_length_le]
    decide

/-- C9 amended: every preset palette shipped in the three catalogs has at
least 2 entries, and all are duplicate-free except the app/core
"ZX Spectrum" palette, which contains (0, 0, 0) twice (dim and bright
black coincide).  Palette construction preserves the invariant in the
Grayscale branch (an injective ramp of `max(2, count)` grey levels) and in
the preset branch (a prefix of a duplicate-free catalog palette, at least
2 entries long); the custom branch returns the loaded colour list
truncated as-is, with no deduplication and no minimum-length guarantee
(see the counterexample).  The adaptive branch delegates to Pillow and is
outside this model. -/
theorem C9_preset_palettes :
    (∀ p ∈ PRESET_PALETTES, 2 ≤ p.2.length ∧ p.2.Nodup) ∧
      (∀ p ∈ APP_PRESET_PALETTES, 2 ≤ p.2.length) ∧
      (∀ p ∈ APP_PRESET_PALETTES, p.1 ≠ "ZX Spectrum" → p.2.Nodup) ∧
      (∀ p ∈ PALETTE_LIBRARY,
        2 ≤ (p.2.map hex_to_rgb).length ∧ (p.2.map hex_to_rgb).Nodup) ∧
      (∀ k : Int, ∃ l, generate_palette grayscaleName k none = some l ∧
        2 ≤ l.length ∧ l.Nodup) ∧
      (∀ (name : String) (pal : List (Nat × Nat × Nat)) (k : Int),
        PRESET_PALETTES.lookup name = some pal →
        ∃ l, generate_palette name k none = some l ∧ 2 ≤ l.length ∧ l.Nodup) ∧
      (∀ (custom : List Vec3) (mode : String) (k : Int),
        mode.startsWith customModeStr = true →
        generate_palette mode k (some custom)
          = some (custom.take (max 2 k).toNat)) := by
  refine ⟨by decide, by decide, by decide, by decide,
    generate_palette_grayscale_ok, ?_, generate_palette_custom_eq⟩
  intro name pal k hlook
  have hmem : (name, pal) ∈ PRESET_PALETTES := mem_of_lookup_eq_some hlook
  have hcat : 2 ≤ pal.length ∧ pal.Nodup := by
    simp only [PRESET_PALETTES, List.mem_cons, List.not_mem_nil, or_false,
      Prod.mk.injEq] at hmem
    rcases hmem with ⟨_, rfl⟩ | ⟨_, rfl⟩ | ⟨_, rfl⟩ <;> exact ⟨by decide, by decide⟩
  exact generate_palette_preset_ok name pal k hlook hcat.1 hcat.2

/-- Concrete instance of `C9_preset_palettes`: the EGA 16 preset is
duplicate-free, and requesting 3 colours from the GameBoy preset
constructs a duplicate-free palette of at least 2 entries. -/
theorem C9_preset_palettes_witness :
    (("EGA 16", ega16_app_palette) ∈ APP_PRESET_PALETTES ∧
      ega16_app_palette.Nodup) ∧
    (PRESET_PALETTES.lookup gameboyName = some gameboy_palette ∧
      ∃ l, generate_palette gameboyName 3 none = some l ∧
        2 ≤ l.length ∧ l.Nodup) :=
  ⟨⟨by decide,
    C9_preset_palettes.2.2.1 ("EGA 16", ega16_app_palette) (by decide) (by decide)⟩,
   ⟨by decide,
    C9_preset_palettes.2.2.2.2.2.1 gameboyName gameboy_palette 3 (by decide)⟩⟩

end Dither

namespace Dither

/-! ## Blue-noise tile (C7): `_blue_noise_tile`, `app/core/dithering.py`
lines 259-273 -/

/-- The four-neighbour wraparound average
`(np.roll(t,1,0) + np.roll(t,-1,0) + np.roll(t,1,1) + np.roll(t,-1,1)) / 4`. -/
def tileBlur (s : Nat) (t : GBuf) : GBuf := fun y x =>
  (t ((y + 1) % s) x + t ((y + s - 1) % s) x
    + t y ((x + 1) % s) + t y ((x + s - 1) % s)) / 4

/-- One relaxation pass: `np.clip(tile * 1.5 - blurred * 0.5, 0.0, 1.0)`. -/
def sharpenStep (s : Nat) (t : GBuf) : GBuf := fun y x =>
  clip 0 1 (t y x * (3/2) - tileBlur s t y x * (1/2))

/-- The tile's cell values in row-major order. -/
def tileCells (s : Nat) (t : GBuf) : List ℚ :=
  (rowMajorPos s s).map (fun p => t p.1 p.2)

/-- Minimum of a list of values (`arr.min()`; 0 for an empty tile). -/
def listMin : List ℚ → ℚ
  | [] => 0
  | v :: rest => rest.foldl min v

/-- Maximum of a list of values (`arr.max()`; 0 for an empty tile). -/
def listMax : List ℚ → ℚ
  | [] => 0
  | v :: rest => rest.foldl max v

/-- `_blue_noise_tile(size)` after the seeded RNG draw: five
sharpen-relaxation iterations, then `tile = tile - tile.min()` and
`tile = tile / (tile.ptp() + 1e-6)` — a min-max normalization.  The
initial uniform noise drawn from `np.random.default_rng(1337)` enters as
the `noise` parameter (the PCG64 bit stream itself is not representable
here); everything after the draw is embedded faithfully. -/
def blue_noise_tile (s : Nat) (noise : GBuf) : GBuf :=
  let shaped := (sharpenStep s)^[5] noise
  let mn := listMin (tileCells s shaped)
  let ptp := listMax (tileCells s shaped) - mn
  fun y x => (shaped y x - mn) / (ptp + 1/1000000)

/-- The claim's rank-normalization property: the sorted multiset of the
s*s cell values is exactly evenly spaced over [0,1) — value k/s² at rank
k. -/
def rankUniform (s : Nat) (t : GBuf) : Prop :=
  List.insertionSort (· ≤ ·) (tileCells s t)
    = (List.range (s * s)).map (fun k => (k : ℚ) / ((s : ℚ) * s))

/-- A concrete 2-by-2 noise draw: cell (1,1) is 1, the rest 0. -/
def noise0 : GBuf := fun y x => if y = 1 ∧ x = 1 then 1 else 0

/-- `noise0` is a fixed point of the relaxation pass on a 2-by-2 tile. -/
theorem sharpenStep_noise0 : sharpenStep 2 noise0 = noise0 := by
  funext y x
  have h21 : y + 2 - 1 = y + 1 := by omega
  have h21x : x + 2 - 1 = x + 1 := by omega
  by_cases hx : x = 1 <;> by_cases hy : y = 1
  · subst hx; subst hy
    norm_num [sharpenStep, tileBlur, noise0, clip]
  · subst hx
    rcases Nat.mod_two_eq_zero_or_one (y + 1) with hp | hp <;>
      norm_num [sharpenStep, tileBlur, noise0, h21, hp, hy, clip]
  · subst hy
    rcases Nat.mod_two_eq_zero_or_one (x + 1) with hp | hp <;>
      norm_num [sharpenStep, tileBlur, noise0, h21x, hp, hx, clip]
  · norm_num [sharpenStep, tileBlur, noise0, hx, hy, clip]

/-- C7 counterexample: the claim fails on the code.  For the concrete
noise draw `noise0` (a fixed point of the shaping pass) the generated
2-by-2 tile has cell values (0, 0, 0, 10⁶/(10⁶+1)); sorted they are not
the evenly spaced ranks (0, 1/4, 1/2, 3/4): min-max normalization is not a
rank transform. -/
theorem C7_rank_uniform_counterexample :
    ¬ rankUniform 2 (blue_noise_tile 2 noise0) := by
  have h5 : (sharpenStep 2)^[5] noise0 = noise0 :=
    Function.iterate_fixed sharpenStep_noise0 5
  unfold rankUniform blue_noise_tile
  simp only [h5]
  norm_num [tileCells, rowMajorPos, listMin, listMax, noise0,
    List.insertionSort, List.orderedInsert, List.range_succ]

end Dither

namespace Dither

theorem foldl_min_le (l : List ℚ) (a : ℚ) :
    ∀ v, v ∈ l ∨ v = a → l.foldl min a ≤ v := by
  induction l generalizing a with
  | nil =>
    rintro v (h | rfl)
    · exact absurd h (List.not_mem_nil v)
    · exact le_refl v
  | cons c rest ih =>
    rintro v (h | rfl)
    · rcases List.mem_cons.mp h with rfl | hm
      · exact le_trans (ih (min a v) (min a v) (Or.inr rfl)) (min_le_right a v)
      · exact ih (min a c) v (Or.inl hm)
    · exact le_trans (ih (min v c) (min v c) (Or.inr rfl)) (min_le_left v c)

theorem le_foldl_max (l : List ℚ) (a : ℚ) :
    ∀ v, v ∈ l ∨ v = a → v ≤ l.foldl max a := by
  induction l generalizing a with
  | nil =>
    rintro v (h | rfl)
    · exact absurd h (List.not_mem_nil v)
    · exact le_refl v
  | cons c rest ih =>
    rintro v (h | rfl)
    · rcases List.mem_cons.mp h with rfl | hm
      · exact le_trans (le_max_right a v) (ih (max a v) (max a v) (Or.inr rfl))
      · exact ih (max a c) v (Or.inl hm)
    · exact le_trans (le_max_left v c) (ih (max v c) (max v c) (Or.inr rfl))

theorem listMin_le_mem (l : List ℚ) (v : ℚ) (hv : v ∈ l) : listMin l ≤ v := by
  cases l with
  | nil => exact absurd hv (List.not_mem_nil v)
  | cons c rest =>
    rcases List.mem_cons.mp hv with rfl | hm
    · exact foldl_min_le rest v v (Or.inr rfl)
    · exact foldl_min_le rest c v (Or.inl hm)

theorem mem_le_listMax (l : List ℚ) (v : ℚ) (hv : v ∈ l) : v ≤ listMax l := by
  cases l with
  | nil => exact absurd hv (List.not_mem_nil v)
  | cons c rest =>
    rcases List.mem_cons.mp hv with rfl | hm
    · exact le_foldl_max rest v v (Or.inr rfl)
    · exact le_foldl_max rest c v (Or.inl hm)

/-- C7 amended: the generated tile is min-max normalized — every cell of
the shaped tile is mapped to `(value - min) / (ptp + 1e-6)` — so all cell
values lie in [0, 1); no rank transform is applied, and the sorted values
are not in general evenly spaced (see the counterexample). -/
theorem C7_blue_noise_normalization (s : Nat) (noise : GBuf) (y x : Nat)
    (hy : y < s) (hx : x < s) :
    blue_noise_tile s noise y x
      = ((sharpenStep s)^[5] noise y x
          - listMin (tileCells s ((sharpenStep s)^[5] noise)))
        / (listMax (tileCells s ((sharpenStep s)^[5] noise))
            - listMin (tileCells s ((sharpenStep s)^[5] noise)) + 1/1000000) ∧
      0 ≤ blue_noise_tile s noise y x ∧ blue_noise_tile s noise y x < 1 := by
  have hmem : (sharpenStep s)^[5] noise y x
      ∈ tileCells s ((sharpenStep s)^[5] noise) :=
    List.mem_map.mpr ⟨(y, x), mem_rowMajorPos.mpr ⟨hy, hx⟩, rfl⟩
  set shaped := (sharpenStep s)^[5] noise with hshaped
  set mn := listMin (tileCells s shaped) with hmn
  set mx := listMax (tileCells s shaped) with hmx
  have hminle : mn ≤ shaped y x := listMin_le_mem _ _ hmem
  have hlemax : shaped y x ≤ mx := mem_le_listMax _ _ hmem
  have hform : blue_noise_tile s noise y x
      = (shaped y x - mn) / (mx - mn + 1/1000000) := rfl
  have hden : (0 : ℚ) < mx - mn + 1/1000000 := by
    have : mn ≤ mx := le_trans hminle hlemax
    linarith
  refine ⟨hform, ?_, ?_⟩
  · rw [hform]
    exact div_nonneg (by linarith) (le_of_lt hden)
  · rw [hform, div_lt_one hden]
    linarith

/-- Concrete instance of `C7_blue_noise_normalization` at cell (0,1) of
the 2-by-2 tile built from `noise0`. -/
theorem C7_blue_noise_normalization_witness :
    ((0 : Nat) < 2 ∧ (1 : Nat) < 2) ∧
      (blue_noise_tile 2 noise0 0 1
        = ((sharpenStep 2)^[5] noise0 0 1
            - listMin (tileCells 2 ((sharpenStep 2)^[5] noise0)))
          / (listMax (tileCells 2 ((sharpenStep 2)^[5] noise0))
              - listMin (tileCells 2 ((sharpenStep 2)^[5] noise0)) + 1/1000000) ∧
        0 ≤ blue_noise_tile 2 noise0 0 1 ∧ blue_noise_tile 2 noise0 0 1 < 1) :=
  ⟨⟨by norm_num, by norm_num⟩,
    C7_blue_noise_normalization 2 noise0 0 1 (by norm_num) (by norm_num)⟩

end Dither

namespace Dither

/-! ## sRGB conversions (C8): `srgb_to_linear` / `linear_to_srgb`,
`dithering_tool.py` lines 31-50.  These are real power curves, embedded
over ℝ. -/

/-- `srgb_to_linear`: branch at `x ≤ 0.04045`, linear scale `x / 12.92`
below, power curve `((x + 0.055) / (1 + 0.055)) ** 2.4` above. -/
noncomputable def srgb_to_linear (x : ℝ) : ℝ :=
  if x ≤ 0.04045 then x / 12.92
  else ((x + 0.055) / (1 + 0.055)) ^ (2.4 : ℝ)

/-- `linear_to_srgb`: branch at `x ≤ 0.0031308`, linear scale `x * 12.92`
below, `(1 + 0.055) * x ** (1 / 2.4) - 0.055` above. -/
noncomputable def linear_to_srgb (x : ℝ) : ℝ :=
  if x ≤ 0.0031308 then x * 12.92
  else (1 + 0.055) * x ^ ((1 : ℝ) / 2.4) - 0.055

theorem rpow_ratio_le (y c : ℝ) (p q : Nat) (hy : 0 ≤ y) (hc : 0 ≤ c)
    (hq : 0 < q) (h : y ^ p ≤ c ^ q) : y ^ (((p : Nat) : ℝ) / ((q : Nat) : ℝ)) ≤ c := by
  have hqR : (0 : ℝ) < ((q : Nat) : ℝ) := by exact_mod_cast hq
  have h1 : y ^ (((p : Nat) : ℝ)) ≤ c ^ (((q : Nat) : ℝ)) := by
    rw [Real.rpow_natCast, Real.rpow_natCast]; exact h
  calc y ^ (((p : Nat) : ℝ) / ((q : Nat) : ℝ))
      = (y ^ (((p : Nat) : ℝ))) ^ ((1 : ℝ) / ((q : Nat) : ℝ)) := by
        rw [← Real.rpow_mul hy]
        congr 1
        field_simp
    _ ≤ (c ^ (((q : Nat) : ℝ))) ^ ((1 : ℝ) / ((q : Nat) : ℝ)) :=
        Real.rpow_le_rpow (Real.rpow_nonneg hy _) h1 (by positivity)
    _ = c := by
        rw [← Real.rpow_mul hc,
          show ((q : Nat) : ℝ) * ((1 : ℝ) / ((q : Nat) : ℝ)) = 1 by field_simp]
        exact Real.rpow_one c

theorem le_rpow_ratio (y c : ℝ) (p q : Nat) (hy : 0 ≤ y) (hc : 0 ≤ c)
    (hq : 0 < q) (h : c ^ q ≤ y ^ p) : c ≤ y ^ (((p : Nat) : ℝ) / ((q : Nat) : ℝ)) := by
  have hqR : (0 : ℝ) < ((q : Nat) : ℝ) := by exact_mod_cast hq
  have h1 : c ^ (((q : Nat) : ℝ)) ≤ y ^ (((p : Nat) : ℝ)) := by
    rw [Real.rpow_natCast, Real.rpow_natCast]; exact h
  calc c
      = (c ^ (((q : Nat) : ℝ))) ^ ((1 : ℝ) / ((q : Nat) : ℝ)) := by
        rw [← Real.rpow_mul hc,
          show ((q : Nat) : ℝ) * ((1 : ℝ) / ((q : Nat) : ℝ)) = 1 by field_simp]
        exact (Real.rpow_one c).symm
    _ ≤ (y ^ (((p : Nat) : ℝ))) ^ ((1 : ℝ) / ((q : Nat) : ℝ)) :=
        Real.rpow_le_rpow (Real.rpow_nonneg hc _) h1 (by positivity)
    _ = y ^ (((p : Nat) : ℝ) / ((q : Nat) : ℝ)) := by
        rw [← Real.rpow_mul hy]
        congr 1
        field_simp

/-- Composing the 2.4 power with its 1/2.4 inverse is the identity on
nonnegative reals. -/
theorem rpow_two_four_inv (u : ℝ) (hu : 0 ≤ u) :
    (u ^ (2.4 : ℝ)) ^ ((1 : ℝ) / 2.4) = u := by
  rw [← Real.rpow_mul hu, show (2.4 : ℝ) * ((1 : ℝ) / 2.4) = 1 by norm_num]
  exact Real.rpow_one u

end Dither

namespace Dither

/-- C8: for every x in [0,1], `linear_to_srgb(srgb_to_linear(x))` is
within 1e-3 of x.  Away from the branch boundaries the round trip is
exact; in the two narrow mismatch slivers around x ≈ 0.04045 (where the
forward branch condition `x ≤ 0.04045` and the inverse condition
`value ≤ 0.0031308` disagree, since 0.04045 / 12.92 ≈ 0.00313080 and
((0.04045 + 0.055) / 1.055)^2.4 ≈ 0.003127 straddle the inverse branch
point) the deviation stays below 3e-4. -/
theorem C8_srgb_roundtrip (x : ℝ) (h0 : 0 ≤ x) (h1 : x ≤ 1) :
    |linear_to_srgb (srgb_to_linear x) - x| ≤ 1/1000 := by
  simp only [srgb_to_linear]
  by_cases hA : x ≤ 0.04045
  · rw [if_pos hA]
    simp only [linear_to_srgb]
    by_cases hB : x / 12.92 ≤ 0.0031308
    · rw [if_pos hB]
      have hx : x / 12.92 * 12.92 = x := by
        field_simp
      rw [hx, sub_self, abs_zero]
      norm_num
    · rw [if_neg hB]
      push_neg at hB
      set y := x / 12.92 with hy
      have hy0 : (0 : ℝ) ≤ y := by rw [hy]; positivity
      have hyx : 12.92 * y = x := by rw [hy]; field_simp
      have hyle : y ≤ 0.04045 / 12.92 := by
        rw [hy]
        gcongr
      have hexp : ((1 : ℝ) / 2.4) = (((5 : Nat) : ℝ) / ((12 : Nat) : ℝ)) := by
        norm_num
      have hlow : (0.0902 : ℝ) ≤ y ^ ((1 : ℝ) / 2.4) := by
        rw [hexp]
        apply le_rpow_ratio _ _ 5 12 hy0 (by norm_num) (by norm_num)
        calc (0.0902 : ℝ) ^ 12 ≤ (0.0031308 : ℝ) ^ 5 := by norm_num
          _ ≤ y ^ 5 := pow_le_pow_left (by norm_num) (le_of_lt hB) 5
      have hupp : y ^ ((1 : ℝ) / 2.4) ≤ 0.0906 := by
        rw [hexp]
        apply rpow_ratio_le _ _ 5 12 hy0 (by norm_num) (by norm_num)
        calc y ^ 5 ≤ (0.04045 / 12.92 : ℝ) ^ 5 :=
              pow_le_pow_left hy0 hyle 5
          _ ≤ (0.0906 : ℝ) ^ 12 := by norm_num
      have hBx : 12.92 * 0.0031308 < x := by
        rw [← hyx]
        have h392 : (0 : ℝ) < 12.92 := by norm_num
        exact (mul_lt_mul_left h392).mpr hB
      rw [abs_le]
      constructor
      · nlinarith [hlow]
      · nlinarith [hupp]
  · rw [if_neg hA]
    push_neg at hA
    simp only [linear_to_srgb]
    set u := (x + 0.055) / (1 + 0.055) with hu
    have hu0 : (0 : ℝ) ≤ u := by rw [hu]; positivity
    have hux : (1 + 0.055) * u = x + 0.055 := by rw [hu]; field_simp
    by_cases hB : u ^ (2.4 : ℝ) ≤ 0.0031308
    · rw [if_pos hB]
      have hexp : (2.4 : ℝ) = (((12 : Nat) : ℝ) / ((5 : Nat) : ℝ)) := by
        norm_num
      have hu_lb : (0.09545 : ℝ) / (1 + 0.055) ≤ u := by
        rw [hu]
        gcongr
        linarith
      have hz_lb : (0.003127 : ℝ) ≤ u ^ (2.4 : ℝ) := by
        rw [hexp]
        apply le_rpow_ratio _ _ 12 5 hu0 (by norm_num) (by norm_num)
        calc (0.003127 : ℝ) ^ 5 ≤ ((0.09545 : ℝ) / (1 + 0.055)) ^ 12 := by norm_num
          _ ≤ u ^ 12 := pow_le_pow_left (by positivity) hu_lb 12
      have hu_ub : u ≤ 0.0906 := by
        have h2 : (u ^ (2.4 : ℝ)) ^ ((1 : ℝ) / 2.4)
            ≤ (0.0031308 : ℝ) ^ ((1 : ℝ) / 2.4) :=
          Real.rpow_le_rpow (Real.rpow_nonneg hu0 _) hB (by norm_num)
        rw [rpow_two_four_inv _ hu0] at h2
        have h3 : (0.0031308 : ℝ) ^ ((1 : ℝ) / 2.4) ≤ 0.0906 := by
          rw [show ((1 : ℝ) / 2.4) = (((5 : Nat) : ℝ) / ((12 : Nat) : ℝ)) by norm_num]
          apply rpow_ratio_le _ _ 5 12 (by norm_num) (by norm_num) (by norm_num)
          norm_num
        linarith
      rw [abs_le]
      constructor
      · nlinarith [hz_lb, hu_ub, hux]
      · nlinarith [hB, hA]
    · rw [if_neg hB, rpow_two_four_inv _ hu0]
      have hx : (1 + 0.055) * u - 0.055 = x := by linarith
      rw [hx, sub_self, abs_zero]
      norm_num

/-- Concrete instance of `C8_srgb_roundtrip` at x = 1/2. -/
theorem C8_srgb_roundtrip_witness :
    (0 : ℝ) ≤ 1/2 ∧ (1/2 : ℝ) ≤ 1 ∧
      |linear_to_srgb (srgb_to_linear (1/2)) - 1/2| ≤ 1/1000 :=
  ⟨by norm_num, by norm_num,
    C8_srgb_roundtrip (1/2) (by norm_num) (by norm_num)⟩

end Dither
